import Mathlib

/-!
Verification of the Clue detective-notebook core
(`src/clue_game/notebook.py`, class `DetectiveNotebook`).

The Python class keeps, per observing player, a belief grid: for each of the
21 catalog cards, a dict `player_status : player name → CardStatus` plus an
`envelope_status : CardStatus`.  Mutations (`mark_card`, `mark_not_has`,
`record_my_cards`, `record_suggestion`) update the grid and then run
`_check_deductions`, a fixpoint loop applying two closure rules.  Query
operations (`get_accusation_recommendation`, `validate_accusation`,
`validate_suggestion`) are pure reads.

Embedding conventions:
* Python dicts (insertion ordered, unique keys) are association lists
  `List (String × α)`; `dictGet?` is `d[k]` / `d.get(k)`, `dictSet` is
  `d[k] = v` (update in place if the key exists, else append), and
  `dictContains` is `k in d`.
* The free-text event log (`turn_log`) and the structured `suggestion_log`
  are not modelled: no claim reads them and they have no effect on the grid.
  Return-value message strings are modelled, with the decorative quote
  characters and apostrophes of the Python f-strings elided.
* Places where the Python source would raise `KeyError` on a missing dict
  key are flagged in comments.  Inside `_check_deductions` the key sets can
  never be missing for states built by the API, and the model's total
  functions skip the missing key; in `record_suggestion` the `KeyError` is
  reachable and is modelled as `Except.error`.
-/

namespace ClueGame

/-- `CardStatus` enum of notebook.py: UNKNOWN "?", HAS "✓", NOT_HAS "✗". -/
inductive CardStatus where
  | unknown
  | has
  | notHas
deriving DecidableEq, Repr

/-- Python dict membership `k in d`. -/
def dictContains (d : List (String × α)) (k : String) : Bool :=
  d.any (fun q => q.1 = k)

/-- Python dict lookup `d.get(k)` (and `d[k]`, which instead raises on `none`). -/
def dictGet? (d : List (String × α)) (k : String) : Option α :=
  (d.find? (fun q => q.1 = k)).map (fun q => q.2)

/-- Python dict assignment `d[k] = v`: overwrite in place when the key is
present, append otherwise. -/
def dictSet (d : List (String × α)) (k : String) (v : α) : List (String × α) :=
  if dictContains d k then d.map (fun q => if q.1 = k then (k, v) else q)
  else d ++ [(k, v)]

/-- `NotebookEntry` dataclass: one card's status across all players plus the
envelope. -/
structure NotebookEntry where
  card_name : String
  card_type : String
  player_status : List (String × CardStatus)
  envelope_status : CardStatus
deriving DecidableEq, Repr

/-- `any(s == CardStatus.HAS for s in entry.player_status.values())`. -/
def anyPlayerHas (e : NotebookEntry) : Bool :=
  e.player_status.any (fun q => q.2 = CardStatus.has)

/-- `NotebookEntry.is_solved`. -/
def NotebookEntry.is_solved (e : NotebookEntry) : Bool :=
  e.envelope_status = CardStatus.has || anyPlayerHas e

/-- `NotebookEntry.get_owner`. -/
def NotebookEntry.get_owner (e : NotebookEntry) : Option String :=
  if e.envelope_status = CardStatus.has then some "ENVELOPE"
  else (e.player_status.find? (fun q => q.2 = CardStatus.has)).map (fun q => q.1)

/-- `DetectiveNotebook`: the belief grid (the event and suggestion logs are
not modelled, see the header comment). -/
structure DetectiveNotebook where
  owner_name : String
  all_players : List String
  entries : List (String × NotebookEntry)
deriving DecidableEq, Repr

/-- Python `str.upper()` for the ASCII identifiers used here (spelled out as
a character map so that it reduces inside the kernel). -/
def strUpper (s : String) : String := ⟨s.data.map Char.toUpper⟩

/-- The six suspect cards of `_init_cards`. -/
def suspects : List String :=
  ["Miss Scarlet", "Colonel Mustard", "Mrs. White",
   "Mr. Green", "Mrs. Peacock", "Professor Plum"]

/-- The six weapon cards of `_init_cards`. -/
def weapons : List String :=
  ["Candlestick", "Knife", "Lead Pipe", "Revolver", "Rope", "Wrench"]

/-- The nine room cards of `_init_cards`. -/
def rooms : List String :=
  ["Kitchen", "Ballroom", "Conservatory", "Billiard Room",
   "Library", "Study", "Hall", "Lounge", "Dining Room"]

/-- `{p: CardStatus.UNKNOWN for p in self.all_players}` (a dict comprehension:
duplicate names collapse onto one key). -/
def initPlayerStatus (players : List String) : List (String × CardStatus) :=
  players.foldl (fun acc p => dictSet acc p CardStatus.unknown) []

/-- `DetectiveNotebook._add_card`. -/
def addCard (nb : DetectiveNotebook) (card ty : String) : DetectiveNotebook :=
  let e : NotebookEntry :=
    { card_name := card, card_type := ty,
      player_status := initPlayerStatus nb.all_players,
      envelope_status := CardStatus.unknown }
  { nb with entries := dictSet nb.entries card e }

/-- `DetectiveNotebook.__init__` followed by `_init_cards`. -/
def initNotebook (owner : String) (players : List String) : DetectiveNotebook :=
  let nb0 : DetectiveNotebook :=
    { owner_name := owner, all_players := players, entries := [] }
  let nb1 := suspects.foldl (fun nb c => addCard nb c "suspect") nb0
  let nb2 := weapons.foldl (fun nb c => addCard nb c "weapon") nb1
  rooms.foldl (fun nb c => addCard nb c "room") nb2

/-! ## The fixpoint inference pass (`_check_deductions`) -/

/-- `all(s == CardStatus.NOT_HAS for s in entry.player_status.values())`. -/
def allNotHas (ps : List (String × CardStatus)) : Bool :=
  ps.all (fun q => q.2 = CardStatus.notHas)

/-- One step of the deduction 2 inner loop: if
`entry.player_status[player] != NOT_HAS` then set it to `NOT_HAS` and record
that something changed.  (The Python indexing would raise `KeyError` on a
missing key; the key set always covers `all_players` for API-built states,
and the model skips a missing key.) -/
def fnhStep (acc : List (String × CardStatus) × Bool) (p : String) :
    List (String × CardStatus) × Bool :=
  match dictGet? acc.1 p with
  | some s =>
      if s ≠ CardStatus.notHas then (dictSet acc.1 p CardStatus.notHas, true)
      else acc
  | none => acc

/-- Deduction 2 inner loop over every player in `players`. -/
def forceNotHas (players : List String) (ps : List (String × CardStatus)) :
    List (String × CardStatus) × Bool :=
  players.foldl fnhStep (ps, false)

/-- One iteration of the `for card_name, entry in self.entries.items()` body of
`_check_deductions`, for a single entry: deduction 1 (all players `NOT_HAS`
and envelope `UNKNOWN` ⇒ envelope `HAS`) followed by deduction 2 (envelope
`HAS` ⇒ every player `NOT_HAS`), returning the updated entry and whether
anything changed.  The three reachable combinations of the two sequential
`if`s of the source are spelled out: when deduction 1 fires the envelope is
`HAS` afterwards, so deduction 2 always runs behind it; otherwise deduction 2
runs exactly when the envelope was already `HAS`. -/
def sweepEntry (players : List String) (e : NotebookEntry) : NotebookEntry × Bool :=
  if e.envelope_status = CardStatus.unknown ∧ allNotHas e.player_status then
    ({ e with
        envelope_status := CardStatus.has
        player_status := (forceNotHas players e.player_status).1 },
     true || (forceNotHas players e.player_status).2)
  else if e.envelope_status = CardStatus.has then
    ({ e with player_status := (forceNotHas players e.player_status).1 },
     false || (forceNotHas players e.player_status).2)
  else (e, false)

/-- One full sweep of the `while changed` loop body: each entry is rewritten
independently (the loop body only reads and writes the entry at hand), and
`changed` is the disjunction over all entries. -/
def sweepOnce (nb : DetectiveNotebook) : DetectiveNotebook × Bool :=
  ({ nb with entries :=
      nb.entries.map (fun q => (q.1, (sweepEntry nb.all_players q.2).1)) },
   nb.entries.any (fun q => (sweepEntry nb.all_players q.2).2))

/-- Number of player cells not yet `NOT_HAS`. -/
def psMeasure (ps : List (String × CardStatus)) : Nat :=
  (ps.filter (fun q => q.2 ≠ CardStatus.notHas)).length

/-- Per-entry termination measure: one for an `UNKNOWN` envelope plus the
number of player cells not yet `NOT_HAS`.  Both deduction rules strictly
decrease it whenever they change anything. -/
def entryMeasure (e : NotebookEntry) : Nat :=
  (if e.envelope_status = CardStatus.unknown then 1 else 0) + psMeasure e.player_status

/-- Whole-grid termination measure. -/
def gridMeasure (nb : DetectiveNotebook) : Nat :=
  (nb.entries.map (fun q => entryMeasure q.2)).sum

/-- The `while changed` loop, with explicit fuel.  The fuel is consumed only
when a sweep changed something; `check_deductions` supplies enough fuel that
the loop always reaches its fixpoint. -/
def deduceLoop : Nat → DetectiveNotebook → DetectiveNotebook
  | 0, nb => nb
  | fuel + 1, nb =>
      let r := sweepOnce nb
      if r.2 then deduceLoop fuel r.1 else r.1

/-- `DetectiveNotebook._check_deductions`. -/
def check_deductions (nb : DetectiveNotebook) : DetectiveNotebook :=
  deduceLoop (gridMeasure nb + 1) nb

/-! ## Event ingestion -/

/-- The `for other_player in self.all_players` loop of `mark_card`: mark all
players other than `player_name` as `NOT_HAS`. -/
def markOthers (players : List String) (player_name : String)
    (ps : List (String × CardStatus)) : List (String × CardStatus) :=
  players.foldl
    (fun acc other =>
      if other ≠ player_name then dictSet acc other CardStatus.notHas else acc)
    ps

/-- The tail of `mark_card` shared by both success branches: mark every
player other than `player_name` as `NOT_HAS`, and — when `player_name` is
not exactly the string `"ENVELOPE"` (the case-sensitive comparison of the
source) — mark the envelope `NOT_HAS`. -/
def markFinish (players : List String) (player_name : String)
    (e : NotebookEntry) : NotebookEntry :=
  if player_name ≠ "ENVELOPE" then
    { e with
        player_status := markOthers players player_name e.player_status
        envelope_status := CardStatus.notHas }
  else
    { e with player_status := markOthers players player_name e.player_status }

/-- `DetectiveNotebook.mark_card`: mark that `player_name` HAS `card_name`
(when `player_name` is a key of the entry's status dict), or — when
`player_name.upper()` is the solution token — mark the envelope `HAS`; then
mark every other player `NOT_HAS`, reset the envelope for a non-"ENVELOPE"
`player_name`, and run `_check_deductions`.  Returns the new grid together
with the message string the Python method returns.  Note the asymmetry
faithfully kept from the source: the acceptance test is
`player_name.upper() == "ENVELOPE"` but the envelope-reset test inside
`markFinish` is the case-sensitive `player_name != "ENVELOPE"`. -/
def mark_card (nb : DetectiveNotebook) (card_name player_name : String) :
    DetectiveNotebook × String :=
  match dictGet? nb.entries card_name with
  | none => (nb, "Error: Unknown card " ++ card_name)
  | some entry =>
    if dictContains entry.player_status player_name then
      (check_deductions
        { nb with
            entries := dictSet nb.entries card_name
              (markFinish nb.all_players player_name
                { entry with
                    player_status :=
                      dictSet entry.player_status player_name CardStatus.has }) },
       "✓ Marked: " ++ player_name ++ " has " ++ card_name)
    else if strUpper player_name = "ENVELOPE" then
      (check_deductions
        { nb with
            entries := dictSet nb.entries card_name
              (markFinish nb.all_players player_name
                { entry with envelope_status := CardStatus.has }) },
       "✓ Marked: " ++ player_name ++ " has " ++ card_name)
    else (nb, "Error: Unknown player " ++ player_name)

/-- `DetectiveNotebook.mark_not_has`: mark that `player_name` does NOT have
`card_name`, then run `_check_deductions`. -/
def mark_not_has (nb : DetectiveNotebook) (card_name player_name : String) :
    DetectiveNotebook × String :=
  match dictGet? nb.entries card_name with
  | none => (nb, "Error: Unknown card " ++ card_name)
  | some entry =>
    if dictContains entry.player_status player_name then
      (check_deductions
        { nb with
            entries := dictSet nb.entries card_name
              { entry with
                  player_status :=
                    dictSet entry.player_status player_name CardStatus.notHas } },
       "✗ Marked: " ++ player_name ++ " does NOT have " ++ card_name)
    else (nb, "Error: Unknown player " ++ player_name)

/-- `DetectiveNotebook.record_my_cards`: `mark_card` every dealt card for the
notebook's owner, collecting the per-card messages. -/
def record_my_cards (nb : DetectiveNotebook) (my_cards : List String) :
    DetectiveNotebook × List String :=
  my_cards.foldl
    (fun acc card =>
      let r := mark_card acc.1 card nb.owner_name
      (r.1, acc.2 ++ [r.2]))
    (nb, [])

/-- `DetectiveNotebook.record_suggestion`.  The suggestion-log append and the
log-only parameters (`turn_number`, `suggester`) are not modelled.  When both
`card_shown` and `disprover` are present, `mark_card` is applied.  For every
passing player and each of the three suggested cards, the source evaluates
`self.entries[card]`, which raises `KeyError` when the card is outside the
catalog — modelled as `Except.error`; when the lookup succeeds and the
passing player's belief is still `UNKNOWN`, `mark_not_has` is applied.
Finally `_check_deductions` runs once more and a summary string is returned
(the summary's free text is abbreviated here). -/
def record_suggestion (nb : DetectiveNotebook) (suspect weapon room : String)
    (disprover : Option String) (card_shown : Option String)
    (players_who_passed : List String) :
    Except String (DetectiveNotebook × String) := do
  let nb1 :=
    match card_shown, disprover with
    | some c, some d => (mark_card nb c d).1
    | _, _ => nb
  let nb2 ← players_who_passed.foldlM
    (fun acc player =>
      [suspect, weapon, room].foldlM
        (fun (acc2 : DetectiveNotebook) card =>
          match dictGet? acc2.entries card with
          | none => Except.error ("KeyError: " ++ card)
          | some e =>
              if dictGet? e.player_status player = some CardStatus.unknown then
                Except.ok (mark_not_has acc2 card player).1
              else Except.ok acc2)
        acc)
    nb1
  Except.ok (check_deductions nb2, "Recorded suggestion")

/-! ## Query operations -/

/-- Accumulator of the scan shared by `get_possible_solution` and
`get_accusation_recommendation`: the `confirmed` dict (last card of each
category whose envelope status is `HAS`) and the `possible` lists (cards not
confirmed in the envelope, not excluded from it, and not held by any
player), in entry order. -/
structure SolutionScan where
  confirmed_suspect : Option String
  confirmed_weapon : Option String
  confirmed_room : Option String
  possible_suspects : List String
  possible_weapons : List String
  possible_rooms : List String
deriving DecidableEq, Repr

/-- `confirmed[entry.card_type] = card_name`.  (A `card_type` outside the
three category names would raise `KeyError` in the source; every catalog
entry carries a valid category and the model ignores such an entry.) -/
def setConfirmed (acc : SolutionScan) (ty name : String) : SolutionScan :=
  if ty = "suspect" then { acc with confirmed_suspect := some name }
  else if ty = "weapon" then { acc with confirmed_weapon := some name }
  else if ty = "room" then { acc with confirmed_room := some name }
  else acc

/-- `possible[entry.card_type].append(card_name)` (same `KeyError` caveat as
`setConfirmed`). -/
def addPossible (acc : SolutionScan) (ty name : String) : SolutionScan :=
  if ty = "suspect" then { acc with possible_suspects := acc.possible_suspects ++ [name] }
  else if ty = "weapon" then { acc with possible_weapons := acc.possible_weapons ++ [name] }
  else if ty = "room" then { acc with possible_rooms := acc.possible_rooms ++ [name] }
  else acc

/-- Body of the scan loop of `get_accusation_recommendation`. -/
def scanStep (acc : SolutionScan) (q : String × NotebookEntry) : SolutionScan :=
  if q.2.envelope_status = CardStatus.has then setConfirmed acc q.2.card_type q.1
  else if q.2.envelope_status ≠ CardStatus.notHas then
    if ¬ anyPlayerHas q.2 then addPossible acc q.2.card_type q.1 else acc
  else acc

/-- The initial scan accumulator: `confirmed` all unset, `possible` all empty. -/
def scanInit : SolutionScan :=
  { confirmed_suspect := none, confirmed_weapon := none, confirmed_room := none,
    possible_suspects := [], possible_weapons := [], possible_rooms := [] }

/-- The scan over all entries. -/
def solutionScan (nb : DetectiveNotebook) : SolutionScan :=
  nb.entries.foldl scanStep scanInit

/-- Python truthiness of a `confirmed[...]` slot: a present, non-empty card
name. -/
def truthy (o : Option String) : Bool :=
  match o with
  | some s => s ≠ ""
  | none => false

/-- Python `confirmed or possible[0]`: the confirmed name when truthy, else
the head of the possible list (whose indexing the source only reaches when
the list is a singleton). -/
def confirmedOrHead (c : Option String) (l : List String) : Option String :=
  if truthy c then c else l.head?

/-- The dict returned by `get_accusation_recommendation`.  The `can_accuse`
branch of the source omits the `possible_*` keys; the model fills them with
`[]` there. -/
structure AccusationRecommendation where
  can_accuse : Bool
  suspect : Option String
  weapon : Option String
  room : Option String
  possible_suspects : List String
  possible_weapons : List String
  possible_rooms : List String
  reason : String
deriving DecidableEq, Repr

/-- The `can_accuse` Boolean of `get_accusation_recommendation`: each of the
three categories is confirmed (a truthy `confirmed` slot) or has exactly one
possible card. -/
def canAccuseBool (nb : DetectiveNotebook) : Bool :=
  (truthy (solutionScan nb).confirmed_suspect
      || (solutionScan nb).possible_suspects.length = 1)
    && (truthy (solutionScan nb).confirmed_weapon
      || (solutionScan nb).possible_weapons.length = 1)
    && (truthy (solutionScan nb).confirmed_room
      || (solutionScan nb).possible_rooms.length = 1)

/-- The `reasons` list built in the cannot-accuse branch of
`get_accusation_recommendation`. -/
def accusationReasons (nb : DetectiveNotebook) : List String :=
  (if ¬ truthy (solutionScan nb).confirmed_suspect
      ∧ (solutionScan nb).possible_suspects.length ≠ 1 then
    [toString (solutionScan nb).possible_suspects.length
      ++ " suspect possibilities remain"] else [])
  ++ (if ¬ truthy (solutionScan nb).confirmed_weapon
      ∧ (solutionScan nb).possible_weapons.length ≠ 1 then
    [toString (solutionScan nb).possible_weapons.length
      ++ " weapon possibilities remain"] else [])
  ++ (if ¬ truthy (solutionScan nb).confirmed_room
      ∧ (solutionScan nb).possible_rooms.length ≠ 1 then
    [toString (solutionScan nb).possible_rooms.length
      ++ " room possibilities remain"] else [])

/-- `DetectiveNotebook.get_accusation_recommendation`. -/
def get_accusation_recommendation (nb : DetectiveNotebook) : AccusationRecommendation :=
  if canAccuseBool nb then
    { can_accuse := true,
      suspect := confirmedOrHead (solutionScan nb).confirmed_suspect
        (solutionScan nb).possible_suspects,
      weapon := confirmedOrHead (solutionScan nb).confirmed_weapon
        (solutionScan nb).possible_weapons,
      room := confirmedOrHead (solutionScan nb).confirmed_room
        (solutionScan nb).possible_rooms,
      possible_suspects := [], possible_weapons := [], possible_rooms := [],
      reason := "All three categories narrowed to one option" }
  else
    { can_accuse := false, suspect := none, weapon := none, room := none,
      possible_suspects := (solutionScan nb).possible_suspects,
      possible_weapons := (solutionScan nb).possible_weapons,
      possible_rooms := (solutionScan nb).possible_rooms,
      reason := if accusationReasons nb ≠ [] then
          String.intercalate "; " (accusationReasons nb)
        else "Need more information" }

/-- The dict returned by `validate_accusation`. -/
structure AccusationValidation where
  valid : Bool
  warnings : List String
  recommendation : AccusationRecommendation
  message : String
deriving DecidableEq, Repr

/-- The warnings `validate_accusation` emits for one proposed card: a card
outside the catalog is skipped; a card some player is confirmed to hold, and
a card the envelope is confirmed not to hold, each add one warning. -/
def accusationWarnings (nb : DetectiveNotebook) (card : String) : List String :=
  match dictGet? nb.entries card with
  | none => []
  | some e =>
      (if anyPlayerHas e then
        ["❌ " ++ card ++ " is held by " ++ (e.get_owner.getD "None")
          ++ " - CANNOT be in envelope!"]
      else [])
      ++ (if e.envelope_status = CardStatus.notHas then
        ["❌ " ++ card ++ " is marked as NOT in envelope!"]
      else [])

/-- `DetectiveNotebook.validate_accusation`. -/
def validate_accusation (nb : DetectiveNotebook) (suspect weapon room : String) :
    AccusationValidation :=
  let warnings :=
    accusationWarnings nb suspect ++ accusationWarnings nb weapon
      ++ accusationWarnings nb room
  let recommendation := get_accusation_recommendation nb
  if warnings ≠ [] then
    { valid := false, warnings := warnings, recommendation := recommendation,
      message := "Your notebook shows this accusation is WRONG!" }
  else
    { valid := true, warnings := [], recommendation := recommendation,
      message := "Accusation is consistent with your notebook knowledge" }

/-- The dict returned by `validate_suggestion`.  The `valid` branch of the
source omits the `better_*` keys; the model fills them with `[]` there. -/
structure SuggestionValidation where
  valid : Bool
  warnings : List String
  wasted_cards : List String
  better_suspects : List String
  better_weapons : List String
  message : String
deriving DecidableEq, Repr

/-- The wasted-card and warning contribution of one proposed card in
`validate_suggestion`: a card outside the catalog is skipped; a card some
player is confirmed to hold is flagged, else a card the envelope is confirmed
not to hold is flagged. -/
def suggestionFlag (nb : DetectiveNotebook) (card : String) :
    List String × List String :=
  match dictGet? nb.entries card with
  | none => ([], [])
  | some e =>
      if anyPlayerHas e then
        ([card],
         ["⚠️ " ++ card ++ " is already known to be held by " ++ (e.get_owner.getD "None")
           ++ " - suggesting it wont give you new info!"])
      else if e.envelope_status = CardStatus.notHas then
        ([card], ["⚠️ " ++ card ++ " is already eliminated from the solution!"])
      else ([], [])

/-- The still-unknown alternative candidates of one category collected by
`validate_suggestion` (entry order). -/
def alternativesFor (nb : DetectiveNotebook) (ty : String) : List String :=
  (nb.entries.filter
    (fun q => q.2.card_type = ty ∧ ¬ q.2.is_solved
      ∧ q.2.envelope_status ≠ CardStatus.notHas ∧ ¬ anyPlayerHas q.2)).map
    (fun q => q.1)

/-- `DetectiveNotebook.validate_suggestion`. -/
def validate_suggestion (nb : DetectiveNotebook) (suspect weapon room : String) :
    SuggestionValidation :=
  let fs := suggestionFlag nb suspect
  let fw := suggestionFlag nb weapon
  let fr := suggestionFlag nb room
  let wasted := fs.1 ++ fw.1 ++ fr.1
  let warnings := fs.2 ++ fw.2 ++ fr.2
  if warnings ≠ [] then
    { valid := false, warnings := warnings, wasted_cards := wasted,
      better_suspects := alternativesFor nb "suspect",
      better_weapons := alternativesFor nb "weapon",
      message := "This suggestion includes cards you already know about!" }
  else
    { valid := true, warnings := [], wasted_cards := [],
      better_suspects := [], better_weapons := [],
      message := "Good suggestion - all cards are still unknown" }

/-- The envelope belief the notebook currently holds for a card. -/
def envelopeStatusOf (nb : DetectiveNotebook) (card : String) : Option CardStatus :=
  (dictGet? nb.entries card).map (fun e => e.envelope_status)

/-- The belief the notebook currently holds for a (card, player) pair. -/
def playerStatusOf (nb : DetectiveNotebook) (card player : String) : Option CardStatus :=
  (dictGet? nb.entries card).bind (fun e => dictGet? e.player_status player)

/-- `markDoesNotHave` applied to one card for every player on the roster, in
roster order. -/
def markNotHasAll (nb : DetectiveNotebook) (card : String) : DetectiveNotebook :=
  nb.all_players.foldl (fun acc p => (mark_not_has acc card p).1) nb

/-! ## Specification-side vocabulary -/

/-- A proposed card is "known out" of the solution: it is in the catalog and
either some player is confirmed to hold it or the envelope is confirmed not
to hold it.  This is the condition under which both `validate_accusation`
and `validate_suggestion` complain about a proposed card. -/
def cardKnownOut (nb : DetectiveNotebook) (card : String) : Bool :=
  match dictGet? nb.entries card with
  | none => false
  | some e => anyPlayerHas e || e.envelope_status = CardStatus.notHas

/-- A name is a good candidate to suggest: if it is in the catalog, then no
owner at all — neither a player nor the solution pseudo-owner — is confirmed
to hold it, and it is not excluded from the solution. -/
def goodCandidate (nb : DetectiveNotebook) (card : String) : Prop :=
  ∀ e, dictGet? nb.entries card = some e →
    anyPlayerHas e = false ∧ e.envelope_status ≠ CardStatus.has
      ∧ e.envelope_status ≠ CardStatus.notHas

/-- Cards of one category confirmed to sit in the envelope (entry order). -/
def confirmedCards (nb : DetectiveNotebook) (ty : String) : List String :=
  (nb.entries.filter
    (fun q => q.2.card_type = ty ∧ q.2.envelope_status = CardStatus.has)).map
    (fun q => q.1)

/-- Cards of one category that could still be the solution: not confirmed in
the envelope, not excluded from it, and held by no player (entry order). -/
def candidateCards (nb : DetectiveNotebook) (ty : String) : List String :=
  (nb.entries.filter
    (fun q => q.2.card_type = ty ∧ q.2.envelope_status ≠ CardStatus.has
      ∧ q.2.envelope_status ≠ CardStatus.notHas ∧ ¬ anyPlayerHas q.2)).map
    (fun q => q.1)

/-- A category is settled for accusation purposes: some card of it is
confirmed in the envelope, or exactly one candidate remains. -/
def categoryReady (nb : DetectiveNotebook) (ty : String) : Prop :=
  confirmedCards nb ty ≠ [] ∨ (candidateCards nb ty).length = 1

/-- A category blocks the accusation: nothing confirmed and not exactly one
candidate. -/
def categoryAmbiguous (nb : DetectiveNotebook) (ty : String) : Prop :=
  confirmedCards nb ty = [] ∧ (candidateCards nb ty).length ≠ 1

instance (nb : DetectiveNotebook) (ty : String) : Decidable (categoryAmbiguous nb ty) :=
  decidable_of_iff
    (confirmedCards nb ty = [] ∧ (candidateCards nb ty).length ≠ 1) Iff.rfl

/-- The reason text the recommendation gives when it cannot accuse: each
ambiguous category named with its remaining option count. -/
def ambiguousReason (nb : DetectiveNotebook) : String :=
  String.intercalate "; "
    ((if categoryAmbiguous nb "suspect" then
        [toString (candidateCards nb "suspect").length ++ " suspect possibilities remain"]
      else [])
     ++ (if categoryAmbiguous nb "weapon" then
        [toString (candidateCards nb "weapon").length ++ " weapon possibilities remain"]
      else [])
     ++ (if categoryAmbiguous nb "room" then
        [toString (candidateCards nb "room").length ++ " room possibilities remain"]
      else []))

/-! ## Concrete states used by witnesses and counterexamples -/

/-- A fresh two-player notebook. -/
def sampleNotebook : DetectiveNotebook := initNotebook "Test" ["P1", "P2"]

/-- Both players marked as not holding Miss Scarlet, so the deduction pass
has concluded that the solution holds Miss Scarlet. -/
def envNotebook : DetectiveNotebook := markNotHasAll sampleNotebook "Miss Scarlet"

/-- A notebook in which P2 is confirmed to hold Miss Scarlet. -/
def heldNotebook : DetectiveNotebook := (mark_card sampleNotebook "Miss Scarlet" "P2").1

/-- A single-card grid in which P1 is confirmed to hold Miss Scarlet while
the solution belief for it is still Unknown (a state `mark_card` itself
never leaves behind, used to demonstrate what `mark_not_has` does to a
recorded certainty). -/
def demoNotebook : DetectiveNotebook :=
  { owner_name := "Test", all_players := ["P1", "P2"],
    entries := [("Miss Scarlet",
      { card_name := "Miss Scarlet", card_type := "suspect",
        player_status := [("P1", CardStatus.has), ("P2", CardStatus.notHas)],
        envelope_status := CardStatus.unknown })] }

/-- The spec scenario of accusation gating: every suspect but Miss Scarlet,
every weapon but Knife and every room but Kitchen marked as held by P1. -/
def accNotebook : DetectiveNotebook :=
  ["Colonel Mustard", "Mrs. White", "Mr. Green", "Mrs. Peacock", "Professor Plum",
   "Candlestick", "Lead Pipe", "Revolver", "Rope", "Wrench",
   "Ballroom", "Conservatory", "Billiard Room", "Library", "Study", "Hall",
   "Lounge", "Dining Room"].foldl
    (fun acc c => (mark_card acc c "P1").1) sampleNotebook

/-! ## Association-list (Python dict) lemmas -/

/-- All pairs of an association list stored under a key agree on one value. -/
def allAt (d : List (String × α)) (k : String) (v : α) : Prop :=
  ∀ q ∈ d, q.1 = k → q = (k, v)

theorem dictContains_nil (k : String) : dictContains ([] : List (String × α)) k = false :=
  rfl

theorem dictContains_cons (q : String × α) (d : List (String × α)) (k : String) :
    dictContains (q :: d) k = (decide (q.1 = k) || dictContains d k) := by
  simp [dictContains]

theorem dictGet?_nil (k : String) : dictGet? ([] : List (String × α)) k = none :=
  rfl

theorem dictGet?_cons (q : String × α) (d : List (String × α)) (k : String) :
    dictGet? (q :: d) k = if q.1 = k then some q.2 else dictGet? d k := by
  by_cases h : q.1 = k
  · rw [if_pos h]
    unfold dictGet?
    rw [List.find?_cons_of_pos _ (by simpa using h)]
    rfl
  · rw [if_neg h]
    unfold dictGet?
    rw [List.find?_cons_of_neg _ (by simpa using h)]

theorem dictSet_of_contains (d : List (String × α)) (k : String) (v : α)
    (h : dictContains d k = true) :
    dictSet d k v = d.map (fun q => if q.1 = k then (k, v) else q) := by
  unfold dictSet
  rw [if_pos h]

theorem dictSet_of_not_contains (d : List (String × α)) (k : String) (v : α)
    (h : dictContains d k = false) :
    dictSet d k v = d ++ [(k, v)] := by
  unfold dictSet
  rw [if_neg]
  simp [h]

theorem dictContains_iff (d : List (String × α)) (k : String) :
    dictContains d k = true ↔ ∃ q ∈ d, q.1 = k := by
  simp [dictContains, List.any_eq_true]

theorem dictGet?_eq_none (d : List (String × α)) (k : String)
    (h : dictContains d k = false) : dictGet? d k = none := by
  induction d with
  | nil => rfl
  | cons q d ih =>
      rw [dictContains_cons] at h
      rcases Bool.or_eq_false_iff.1 h with ⟨h1, h2⟩
      rw [dictGet?_cons, if_neg (by simpa using h1)]
      exact ih h2

theorem dictGet?_isSome (d : List (String × α)) (k : String) (v : α)
    (h : dictGet? d k = some v) : dictContains d k = true := by
  by_cases hc : dictContains d k = true
  · exact hc
  · rw [dictGet?_eq_none d k (Bool.eq_false_iff.2 hc)] at h
    cases h

theorem mem_dictSet (d : List (String × α)) (k : String) (v : α)
    (q : String × α) (hq : q ∈ dictSet d k v) : q = (k, v) ∨ q ∈ d := by
  by_cases h : dictContains d k = true
  · rw [dictSet_of_contains d k v h] at hq
    rcases List.mem_map.1 hq with ⟨q', hq', rfl⟩
    by_cases hk : q'.1 = k
    · simp [hk]
    · simp [hk, hq']
  · rw [dictSet_of_not_contains d k v (Bool.eq_false_iff.2 h)] at hq
    rcases List.mem_append.1 hq with hq' | hq'
    · exact Or.inr hq'
    · exact Or.inl (List.mem_singleton.1 hq')

theorem allAt_dictSet_self (d : List (String × α)) (k : String) (v : α) :
    allAt (dictSet d k v) k v := by
  intro q hq hk
  by_cases h : dictContains d k = true
  · rw [dictSet_of_contains d k v h] at hq
    rcases List.mem_map.1 hq with ⟨q', _, rfl⟩
    by_cases hk' : q'.1 = k
    · simp [hk']
    · simp only [if_neg hk'] at hk ⊢
      exact absurd hk hk'
  · rw [dictSet_of_not_contains d k v (Bool.eq_false_iff.2 h)] at hq
    rcases List.mem_append.1 hq with hq' | hq'
    · exact absurd ((dictContains_iff d k).2 ⟨q, hq', hk⟩) h
    · exact List.mem_singleton.1 hq'

theorem allAt_dictSet_ne (d : List (String × α)) (k k' : String) (v v' : α)
    (hne : k' ≠ k) (h : allAt d k' v') : allAt (dictSet d k v) k' v' := by
  intro q hq hk
  rcases mem_dictSet d k v q hq with rfl | hq'
  · exact absurd hk hne.symm
  · exact h q hq' hk

theorem dictGet?_of_allAt (d : List (String × α)) (k : String) (v : α)
    (h : allAt d k v) (hc : dictContains d k = true) : dictGet? d k = some v := by
  induction d with
  | nil => cases hc
  | cons q d ih =>
      rw [dictGet?_cons]
      by_cases hk : q.1 = k
      · rw [if_pos hk, h q (List.mem_cons_self q d) hk]
      · rw [if_neg hk]
        refine ih (fun q' hq' hk' => h q' (List.mem_cons_of_mem q hq') hk') ?_
        rw [dictContains_cons] at hc
        rcases Bool.or_eq_true_iff.1 hc with h1 | h1
        · exact absurd (by simpa using h1) hk
        · exact h1

theorem dictContains_dictSet_self (d : List (String × α)) (k : String) (v : α) :
    dictContains (dictSet d k v) k = true := by
  by_cases h : dictContains d k = true
  · rw [dictSet_of_contains d k v h]
    rcases (dictContains_iff d k).1 h with ⟨q, hq, hk⟩
    exact (dictContains_iff _ _).2 ⟨(k, v), List.mem_map.2 ⟨q, hq, by simp [hk]⟩, rfl⟩
  · rw [dictSet_of_not_contains d k v (Bool.eq_false_iff.2 h)]
    exact (dictContains_iff _ _).2 ⟨(k, v), by simp, rfl⟩

theorem dictContains_dictSet_ne (d : List (String × α)) (k k' : String) (v : α)
    (hne : k' ≠ k) : dictContains (dictSet d k v) k' = dictContains d k' := by
  have hpred : ((fun q : String × α => decide (q.1 = k'))
      ∘ (fun q => if q.1 = k then (k, v) else q))
      = fun q : String × α => decide (q.1 = k') := by
    funext q
    by_cases hk : q.1 = k
    · simp only [Function.comp, if_pos hk]
      have h1 : ¬ ((k, v) : String × α).1 = k' := fun h' => hne h'.symm
      have h2 : ¬ q.1 = k' := fun h' => hne (hk ▸ h').symm
      simp [h1, h2]
    · simp [Function.comp, if_neg hk]
  by_cases h : dictContains d k = true
  · rw [dictSet_of_contains d k v h]
    unfold dictContains
    rw [List.any_map, hpred]
  · rw [dictSet_of_not_contains d k v (Bool.eq_false_iff.2 h)]
    unfold dictContains
    rw [List.any_append]
    have : ([(k, v)] : List (String × α)).any (fun q => q.1 = k') = false := by
      simp [fun h' => hne.symm h']
    rw [this, Bool.or_false]

theorem dictContains_dictSet_mono (d : List (String × α)) (k k' : String) (v : α)
    (h : dictContains d k' = true) : dictContains (dictSet d k v) k' = true := by
  by_cases hk : k' = k
  · exact hk ▸ dictContains_dictSet_self d k v
  · rw [dictContains_dictSet_ne d k k' v hk]; exact h

theorem dictGet?_dictSet_ne (d : List (String × α)) (k k' : String) (v : α)
    (hne : k' ≠ k) : dictGet? (dictSet d k v) k' = dictGet? d k' := by
  have hpred : ((fun q : String × α => decide (q.1 = k'))
      ∘ (fun q => if q.1 = k then (k, v) else q))
      = fun q : String × α => decide (q.1 = k') := by
    funext q
    by_cases hk : q.1 = k
    · simp only [Function.comp, if_pos hk]
      have h1 : ¬ ((k, v) : String × α).1 = k' := fun h' => hne h'.symm
      have h2 : ¬ q.1 = k' := fun h' => hne (hk ▸ h').symm
      simp [h1, h2]
    · simp [Function.comp, if_neg hk]
  by_cases h : dictContains d k = true
  · rw [dictSet_of_contains d k v h]
    unfold dictGet?
    rw [List.find?_map, hpred]
    cases hf : List.find? (fun q : String × α => decide (q.1 = k')) d with
    | none => rfl
    | some q =>
        have hq : q.1 = k' := by simpa using List.find?_some hf
        have hfix : (if q.1 = k then ((k, v) : String × α) else q) = q := by
          rw [if_neg (fun h' => hne (by rw [← hq, h']))]
        simp [hfix]
  · rw [dictSet_of_not_contains d k v (Bool.eq_false_iff.2 h)]
    induction d with
    | nil =>
        rw [List.nil_append, dictGet?_cons,
          if_neg (fun h' : (k, v).1 = k' => hne h'.symm)]
    | cons q d ih =>
        rw [List.cons_append, dictGet?_cons, dictGet?_cons]
        by_cases hk : q.1 = k'
        · rw [if_pos hk, if_pos hk]
        · rw [if_neg hk, if_neg hk]
          refine ih ?_
          rw [dictContains_cons] at h
          simp only [Bool.or_eq_true, not_or] at h
          exact h.2

theorem map_dictSet_id (d : List (String × α)) (k : String) (v : α)
    (hall : allAt d k v) :
    d.map (fun q => if q.1 = k then (k, v) else q) = d := by
  induction d with
  | nil => rfl
  | cons q d ih =>
      rw [List.map_cons]
      congr 1
      · by_cases hk : q.1 = k
        · rw [if_pos hk]
          exact (hall q (List.mem_cons_self q d) hk).symm
        · rw [if_neg hk]
      · exact ih (fun q' hq' hk' => hall q' (List.mem_cons_of_mem q hq') hk')

theorem dictSet_id (d : List (String × α)) (k : String) (v : α)
    (hall : allAt d k v) (hc : dictContains d k = true) : dictSet d k v = d := by
  rw [dictSet_of_contains d k v hc]
  exact map_dictSet_id d k v hall

theorem dictGet?_dictSet_self (d : List (String × α)) (k : String) (v : α) :
    dictGet? (dictSet d k v) k = some v :=
  dictGet?_of_allAt _ k v (allAt_dictSet_self d k v) (dictContains_dictSet_self d k v)

theorem dictContains_dictSet_of_contains (d : List (String × α)) (p k : String) (v : α)
    (hp : dictContains d p = true) :
    dictContains (dictSet d p v) k = dictContains d k := by
  by_cases hk : k = p
  · subst hk
    rw [dictContains_dictSet_self d k v, hp]
  · exact dictContains_dictSet_ne d p k v hk

/-! ## Measure lemmas for the inner deduction loop -/

theorem psMeasure_cons (q : String × CardStatus) (ps : List (String × CardStatus)) :
    psMeasure (q :: ps)
      = (if q.2 ≠ CardStatus.notHas then 1 else 0) + psMeasure ps := by
  unfold psMeasure
  by_cases h : q.2 ≠ CardStatus.notHas
  · rw [List.filter_cons_of_pos (by simpa using h), if_pos h, List.length_cons,
      Nat.add_comm]
  · rw [List.filter_cons_of_neg (by simpa using h), if_neg h, Nat.zero_add]

theorem psMeasure_map_notHas_le (ps : List (String × CardStatus)) (p : String) :
    psMeasure (ps.map (fun q => if q.1 = p then (p, CardStatus.notHas) else q))
      ≤ psMeasure ps := by
  induction ps with
  | nil => exact Nat.le_refl _
  | cons q ps ih =>
      rw [List.map_cons, psMeasure_cons, psMeasure_cons]
      by_cases hk : q.1 = p
      · rw [if_pos hk,
          if_neg (by simp :
            ¬ ((p, CardStatus.notHas) : String × CardStatus).2 ≠ CardStatus.notHas)]
        exact Nat.add_le_add (Nat.zero_le _) ih
      · rw [if_neg hk]
        exact Nat.add_le_add_left ih _

theorem psMeasure_dictSet_notHas_le (ps : List (String × CardStatus)) (p : String) :
    psMeasure (dictSet ps p CardStatus.notHas) ≤ psMeasure ps := by
  by_cases h : dictContains ps p = true
  · rw [dictSet_of_contains ps p _ h]
    exact psMeasure_map_notHas_le ps p
  · rw [dictSet_of_not_contains ps p _ (Bool.eq_false_iff.2 h)]
    unfold psMeasure
    rw [List.filter_append]
    simp

theorem psMeasure_dictSet_notHas_lt (ps : List (String × CardStatus)) (p : String)
    (s : CardStatus) (h : dictGet? ps p = some s) (hs : s ≠ CardStatus.notHas) :
    psMeasure (dictSet ps p CardStatus.notHas) < psMeasure ps := by
  rw [dictSet_of_contains ps p _ (dictGet?_isSome ps p s h)]
  induction ps with
  | nil => cases h
  | cons q ps ih =>
      rw [dictGet?_cons] at h
      rw [List.map_cons, psMeasure_cons, psMeasure_cons]
      by_cases hk : q.1 = p
      · rw [if_pos hk] at h ⊢
        have hq2 : q.2 = s := Option.some.inj h
        rw [if_neg (by simp :
            ¬ ((p, CardStatus.notHas) : String × CardStatus).2 ≠ CardStatus.notHas),
          if_pos (by rw [hq2]; exact hs)]
        have hle := psMeasure_map_notHas_le ps p
        omega
      · rw [if_neg hk] at h
        rw [if_neg hk]
        exact Nat.add_lt_add_left (ih h) _

/-! ## Lemmas on the deduction 2 inner loop -/

theorem fnhStep_cases (acc : List (String × CardStatus) × Bool) (p : String) :
    fnhStep acc p = acc ∨
    ∃ s, dictGet? acc.1 p = some s ∧ s ≠ CardStatus.notHas ∧
      fnhStep acc p = (dictSet acc.1 p CardStatus.notHas, true) := by
  unfold fnhStep
  cases hg : dictGet? acc.1 p with
  | none => exact Or.inl rfl
  | some s =>
      by_cases hs : s ≠ CardStatus.notHas
      · refine Or.inr ⟨s, rfl, hs, ?_⟩
        show (if s ≠ CardStatus.notHas
            then (dictSet acc.1 p CardStatus.notHas, true) else acc)
          = (dictSet acc.1 p CardStatus.notHas, true)
        rw [if_pos hs]
      · refine Or.inl ?_
        show (if s ≠ CardStatus.notHas
            then (dictSet acc.1 p CardStatus.notHas, true) else acc) = acc
        rw [if_neg hs]

theorem fnh_flag_mono (players : List String) (acc : List (String × CardStatus) × Bool)
    (h : acc.2 = true) : (players.foldl fnhStep acc).2 = true := by
  induction players generalizing acc with
  | nil => exact h
  | cons p ps ih =>
      rw [List.foldl_cons]
      rcases fnhStep_cases acc p with h1 | ⟨s, _, _, h1⟩
      · rw [h1]; exact ih acc h
      · rw [h1]; exact ih _ rfl

theorem fnh_false (players : List String) (acc : List (String × CardStatus) × Bool)
    (h : (players.foldl fnhStep acc).2 = false) : players.foldl fnhStep acc = acc := by
  induction players generalizing acc with
  | nil => rfl
  | cons p ps ih =>
      rw [List.foldl_cons] at h ⊢
      rcases fnhStep_cases acc p with h1 | ⟨s, _, _, h1⟩
      · rw [h1] at h ⊢; exact ih acc h
      · rw [h1] at h
        rw [fnh_flag_mono ps _ rfl] at h
        cases h

theorem fnh_measure_le (players : List String) (acc : List (String × CardStatus) × Bool) :
    psMeasure (players.foldl fnhStep acc).1 ≤ psMeasure acc.1 := by
  induction players generalizing acc with
  | nil => exact Nat.le_refl _
  | cons p ps ih =>
      rw [List.foldl_cons]
      rcases fnhStep_cases acc p with h1 | ⟨s, hg, hs, h1⟩
      · rw [h1]; exact ih acc
      · rw [h1]
        exact Nat.le_trans (ih _)
          (Nat.le_of_lt (psMeasure_dictSet_notHas_lt acc.1 p s hg hs))

theorem fnh_measure_lt (players : List String) (acc : List (String × CardStatus) × Bool)
    (hb : acc.2 = false) (h : (players.foldl fnhStep acc).2 = true) :
    psMeasure (players.foldl fnhStep acc).1 < psMeasure acc.1 := by
  induction players generalizing acc with
  | nil =>
      rw [List.foldl_nil] at h
      rw [hb] at h
      cases h
  | cons p ps ih =>
      rw [List.foldl_cons] at h ⊢
      rcases fnhStep_cases acc p with h1 | ⟨s, hg, hs, h1⟩
      · rw [h1] at h ⊢; exact ih acc hb h
      · rw [h1]
        exact Nat.lt_of_le_of_lt (fnh_measure_le ps _)
          (psMeasure_dictSet_notHas_lt acc.1 p s hg hs)

theorem fnh_allAt_notHas (players : List String) (acc : List (String × CardStatus) × Bool)
    (k : String) (h : allAt acc.1 k CardStatus.notHas) :
    allAt (players.foldl fnhStep acc).1 k CardStatus.notHas := by
  induction players generalizing acc with
  | nil => exact h
  | cons p ps ih =>
      rw [List.foldl_cons]
      rcases fnhStep_cases acc p with h1 | ⟨s, _, _, h1⟩
      · rw [h1]; exact ih acc h
      · rw [h1]
        apply ih
        by_cases hk : k = p
        · subst hk; exact allAt_dictSet_self acc.1 k CardStatus.notHas
        · exact allAt_dictSet_ne acc.1 p k CardStatus.notHas CardStatus.notHas hk h

theorem fnh_contains (players : List String) (acc : List (String × CardStatus) × Bool)
    (k : String) :
    dictContains (players.foldl fnhStep acc).1 k = dictContains acc.1 k := by
  induction players generalizing acc with
  | nil => rfl
  | cons p ps ih =>
      rw [List.foldl_cons]
      rcases fnhStep_cases acc p with h1 | ⟨s, hg, _, h1⟩
      · rw [h1]; exact ih acc
      · rw [h1, ih _]
        exact dictContains_dictSet_of_contains acc.1 p k CardStatus.notHas
          (dictGet?_isSome acc.1 p s hg)

theorem fnh_keys (players : List String) (acc : List (String × CardStatus) × Bool)
    (S : List String) (hS : ∀ p ∈ players, p ∈ S) (h : ∀ q ∈ acc.1, q.1 ∈ S) :
    ∀ q ∈ (players.foldl fnhStep acc).1, q.1 ∈ S := by
  induction players generalizing acc with
  | nil => exact h
  | cons p ps ih =>
      rw [List.foldl_cons]
      rcases fnhStep_cases acc p with h1 | ⟨s, _, _, h1⟩
      · rw [h1]
        exact ih acc (fun x hx => hS x (List.mem_cons_of_mem p hx)) h
      · rw [h1]
        refine ih _ (fun x hx => hS x (List.mem_cons_of_mem p hx)) ?_
        intro q hq
        rcases mem_dictSet acc.1 p CardStatus.notHas q hq with rfl | hq'
        · exact hS p (List.mem_cons_self p ps)
        · exact h q hq'

theorem fnh_id_of_clean (players : List String) (acc : List (String × CardStatus) × Bool)
    (h : ∀ p ∈ players, dictGet? acc.1 p = none
      ∨ dictGet? acc.1 p = some CardStatus.notHas) :
    players.foldl fnhStep acc = acc := by
  induction players generalizing acc with
  | nil => rfl
  | cons p ps ih =>
      rw [List.foldl_cons]
      have hstep : fnhStep acc p = acc := by
        unfold fnhStep
        rcases h p (List.mem_cons_self p ps) with h1 | h1 <;> rw [h1]
        simp
      rw [hstep]
      exact ih acc (fun x hx => h x (List.mem_cons_of_mem p hx))

/-! ## Lemmas on one entry sweep -/

theorem entry_eta (e : NotebookEntry) :
    ({ card_name := e.card_name, card_type := e.card_type,
       player_status := e.player_status,
       envelope_status := e.envelope_status } : NotebookEntry) = e := rfl

theorem sweepEntry_false_eq (players : List String) (e : NotebookEntry)
    (h : (sweepEntry players e).2 = false) : (sweepEntry players e).1 = e := by
  unfold sweepEntry at h ⊢
  by_cases h1 : e.envelope_status = CardStatus.unknown ∧ allNotHas e.player_status
  · rw [if_pos h1] at h
    cases h
  · rw [if_neg h1] at h ⊢
    by_cases h2 : e.envelope_status = CardStatus.has
    · rw [if_pos h2] at h ⊢
      simp only [Bool.false_or] at h
      have := fnh_false players (e.player_status, false) h
      rw [show forceNotHas players e.player_status
          = players.foldl fnhStep (e.player_status, false) from rfl, this]
    · rw [if_neg h2]

theorem entryMeasure_sweepEntry_lt (players : List String) (e : NotebookEntry)
    (h : (sweepEntry players e).2 = true) :
    entryMeasure (sweepEntry players e).1 < entryMeasure e := by
  unfold sweepEntry at h ⊢
  by_cases h1 : e.envelope_status = CardStatus.unknown ∧ allNotHas e.player_status
  · rw [if_pos h1]
    show (if CardStatus.has = CardStatus.unknown then 1 else 0)
        + psMeasure (forceNotHas players e.player_status).1
      < (if e.envelope_status = CardStatus.unknown then 1 else 0)
        + psMeasure e.player_status
    rw [if_neg (by simp : ¬ (CardStatus.has = CardStatus.unknown)), if_pos h1.1]
    have hle : psMeasure (forceNotHas players e.player_status).1
        ≤ psMeasure e.player_status := fnh_measure_le players _
    omega
  · rw [if_neg h1] at h ⊢
    by_cases h2 : e.envelope_status = CardStatus.has
    · rw [if_pos h2] at h ⊢
      simp only [Bool.false_or] at h
      show (if e.envelope_status = CardStatus.unknown then 1 else 0)
          + psMeasure (forceNotHas players e.player_status).1
        < (if e.envelope_status = CardStatus.unknown then 1 else 0)
          + psMeasure e.player_status
      have hlt : psMeasure (forceNotHas players e.player_status).1
          < psMeasure e.player_status := fnh_measure_lt players _ rfl h
      omega
    · rw [if_neg h2] at h
      cases h

theorem entryMeasure_sweepEntry_le (players : List String) (e : NotebookEntry) :
    entryMeasure (sweepEntry players e).1 ≤ entryMeasure e := by
  cases hf : (sweepEntry players e).2 with
  | false => rw [sweepEntry_false_eq players e hf]
  | true => exact Nat.le_of_lt (entryMeasure_sweepEntry_lt players e hf)

theorem sweepEntry_id_of_env_notHas (players : List String) (e : NotebookEntry)
    (h : e.envelope_status = CardStatus.notHas) :
    sweepEntry players e = (e, false) := by
  unfold sweepEntry
  rw [if_neg (by rw [h]; simp), if_neg (by rw [h]; simp)]

theorem sweepEntry_id_of_env_has_clean (players : List String) (e : NotebookEntry)
    (h : e.envelope_status = CardStatus.has)
    (hc : ∀ p ∈ players, dictGet? e.player_status p = none
      ∨ dictGet? e.player_status p = some CardStatus.notHas) :
    sweepEntry players e = (e, false) := by
  unfold sweepEntry
  rw [if_neg (by rw [h]; simp), if_pos h]
  have hid : forceNotHas players e.player_status = (e.player_status, false) :=
    fnh_id_of_clean players (e.player_status, false) hc
  rw [hid]
  rfl

theorem sweepEntry_env_cases (players : List String) (e : NotebookEntry) :
    (sweepEntry players e).1.envelope_status = e.envelope_status
    ∨ (e.envelope_status = CardStatus.unknown
       ∧ (sweepEntry players e).1.envelope_status = CardStatus.has) := by
  unfold sweepEntry
  by_cases h1 : e.envelope_status = CardStatus.unknown ∧ allNotHas e.player_status
  · rw [if_pos h1]
    exact Or.inr ⟨h1.1, rfl⟩
  · rw [if_neg h1]
    by_cases h2 : e.envelope_status = CardStatus.has
    · rw [if_pos h2]
      exact Or.inl rfl
    · rw [if_neg h2]
      exact Or.inl rfl

theorem sweepEntry_allAt (players : List String) (e : NotebookEntry) (k : String)
    (h : allAt e.player_status k CardStatus.notHas) :
    allAt (sweepEntry players e).1.player_status k CardStatus.notHas := by
  unfold sweepEntry
  by_cases h1 : e.envelope_status = CardStatus.unknown ∧ allNotHas e.player_status
  · rw [if_pos h1]
    exact fnh_allAt_notHas players _ k h
  · rw [if_neg h1]
    by_cases h2 : e.envelope_status = CardStatus.has
    · rw [if_pos h2]
      exact fnh_allAt_notHas players _ k h
    · rw [if_neg h2]
      exact h

theorem sweepEntry_contains (players : List String) (e : NotebookEntry) (k : String) :
    dictContains (sweepEntry players e).1.player_status k
      = dictContains e.player_status k := by
  unfold sweepEntry
  by_cases h1 : e.envelope_status = CardStatus.unknown ∧ allNotHas e.player_status
  · rw [if_pos h1]
    exact fnh_contains players _ k
  · rw [if_neg h1]
    by_cases h2 : e.envelope_status = CardStatus.has
    · rw [if_pos h2]
      exact fnh_contains players _ k
    · rw [if_neg h2]

theorem sweepEntry_keys (players : List String) (e : NotebookEntry) (S : List String)
    (hS : ∀ p ∈ players, p ∈ S) (h : ∀ q ∈ e.player_status, q.1 ∈ S) :
    ∀ q ∈ (sweepEntry players e).1.player_status, q.1 ∈ S := by
  unfold sweepEntry
  by_cases h1 : e.envelope_status = CardStatus.unknown ∧ allNotHas e.player_status
  · rw [if_pos h1]
    exact fnh_keys players _ S hS h
  · rw [if_neg h1]
    by_cases h2 : e.envelope_status = CardStatus.has
    · rw [if_pos h2]
      exact fnh_keys players _ S hS h
    · rw [if_neg h2]
      exact h

theorem sweepEntry_flag_of_ready (players : List String) (e : NotebookEntry)
    (h1 : e.envelope_status = CardStatus.unknown) (h2 : allNotHas e.player_status = true) :
    (sweepEntry players e).2 = true := by
  unfold sweepEntry
  rw [if_pos ⟨h1, h2⟩]
  simp

theorem sweepEntry_card_name (players : List String) (e : NotebookEntry) :
    (sweepEntry players e).1.card_name = e.card_name := by
  unfold sweepEntry
  by_cases h1 : e.envelope_status = CardStatus.unknown ∧ allNotHas e.player_status
  · rw [if_pos h1]
  · rw [if_neg h1]
    by_cases h2 : e.envelope_status = CardStatus.has
    · rw [if_pos h2]
    · rw [if_neg h2]

/-! ## Lemmas on a full sweep and on the fixpoint loop -/

theorem map_id_of_mem (l : List β) (f : β → β) (h : ∀ a ∈ l, f a = a) :
    l.map f = l := by
  induction l with
  | nil => rfl
  | cons a l ih =>
      rw [List.map_cons, h a (List.mem_cons_self a l),
        ih (fun a' ha' => h a' (List.mem_cons_of_mem a ha'))]

theorem sweepOnce_all_players (nb : DetectiveNotebook) :
    (sweepOnce nb).1.all_players = nb.all_players := rfl

theorem sweepOnce_owner_name (nb : DetectiveNotebook) :
    (sweepOnce nb).1.owner_name = nb.owner_name := rfl

theorem sweepOnce_flags (nb : DetectiveNotebook)
    (h : (sweepOnce nb).2 = false) :
    ∀ q ∈ nb.entries, (sweepEntry nb.all_players q.2).2 = false := by
  intro q hq
  have := List.any_eq_false.1 h q hq
  simpa using this

theorem sweepOnce_false_eq (nb : DetectiveNotebook)
    (h : (sweepOnce nb).2 = false) : (sweepOnce nb).1 = nb := by
  show { nb with entries :=
    nb.entries.map (fun q => (q.1, (sweepEntry nb.all_players q.2).1)) } = nb
  have hmap : nb.entries.map (fun q => (q.1, (sweepEntry nb.all_players q.2).1))
      = nb.entries := by
    apply map_id_of_mem
    intro q hq
    rw [sweepEntry_false_eq _ _ (sweepOnce_flags nb h q hq)]
  rw [hmap]

theorem sum_entryMeasure_sweep_le (players : List String)
    (l : List (String × NotebookEntry)) :
    (l.map (fun q => entryMeasure (sweepEntry players q.2).1)).sum
      ≤ (l.map (fun q => entryMeasure q.2)).sum := by
  induction l with
  | nil => exact Nat.le_refl _
  | cons q l ih =>
      rw [List.map_cons, List.map_cons, List.sum_cons, List.sum_cons]
      exact Nat.add_le_add (entryMeasure_sweepEntry_le players q.2) ih

theorem sum_entryMeasure_sweep_lt (players : List String)
    (l : List (String × NotebookEntry))
    (h : l.any (fun q => (sweepEntry players q.2).2) = true) :
    (l.map (fun q => entryMeasure (sweepEntry players q.2).1)).sum
      < (l.map (fun q => entryMeasure q.2)).sum := by
  induction l with
  | nil => cases h
  | cons q l ih =>
      rw [List.any_cons] at h
      rw [List.map_cons, List.map_cons, List.sum_cons, List.sum_cons]
      by_cases hq : (sweepEntry players q.2).2 = true
      · have h1 := entryMeasure_sweepEntry_lt players q.2 hq
        have h2 := sum_entryMeasure_sweep_le players l
        omega
      · have hq' : (sweepEntry players q.2).2 = false := Bool.eq_false_iff.2 hq
        rw [hq'] at h
        simp only [Bool.false_or] at h
        have h1 := entryMeasure_sweepEntry_le players q.2
        have h2 := ih h
        omega

theorem gridMeasure_sweepOnce_lt (nb : DetectiveNotebook)
    (h : (sweepOnce nb).2 = true) :
    gridMeasure (sweepOnce nb).1 < gridMeasure nb := by
  show ((nb.entries.map (fun q => (q.1, (sweepEntry nb.all_players q.2).1))).map
    (fun q => entryMeasure q.2)).sum < (nb.entries.map (fun q => entryMeasure q.2)).sum
  rw [List.map_map]
  exact sum_entryMeasure_sweep_lt nb.all_players nb.entries h

theorem deduceLoop_succ (fuel : Nat) (nb : DetectiveNotebook) :
    deduceLoop (fuel + 1) nb
      = if (sweepOnce nb).2 = true then deduceLoop fuel (sweepOnce nb).1
        else (sweepOnce nb).1 := rfl

theorem deduceLoop_all_players (fuel : Nat) (nb : DetectiveNotebook) :
    (deduceLoop fuel nb).all_players = nb.all_players := by
  induction fuel generalizing nb with
  | zero => rfl
  | succ f ih =>
      rw [deduceLoop_succ]
      by_cases h : (sweepOnce nb).2 = true
      · rw [if_pos h, ih]
        exact sweepOnce_all_players nb
      · rw [if_neg h]
        exact sweepOnce_all_players nb

theorem deduceLoop_owner_name (fuel : Nat) (nb : DetectiveNotebook) :
    (deduceLoop fuel nb).owner_name = nb.owner_name := by
  induction fuel generalizing nb with
  | zero => rfl
  | succ f ih =>
      rw [deduceLoop_succ]
      by_cases h : (sweepOnce nb).2 = true
      · rw [if_pos h, ih]
        exact sweepOnce_owner_name nb
      · rw [if_neg h]
        exact sweepOnce_owner_name nb

theorem deduceLoop_fix (fuel : Nat) (nb : DetectiveNotebook)
    (h : gridMeasure nb < fuel) :
    sweepOnce (deduceLoop fuel nb) = (deduceLoop fuel nb, false) := by
  induction fuel generalizing nb with
  | zero => cases h
  | succ f ih =>
      rw [deduceLoop_succ]
      by_cases hc : (sweepOnce nb).2 = true
      · rw [if_pos hc]
        exact ih _ (Nat.lt_of_lt_of_le (gridMeasure_sweepOnce_lt nb hc)
          (Nat.le_of_lt_succ h))
      · rw [if_neg hc]
        have h1 : (sweepOnce nb).1 = nb := sweepOnce_false_eq nb (Bool.eq_false_iff.2 hc)
        rw [h1]
        have h2 : (sweepOnce nb).2 = false := Bool.eq_false_iff.2 hc
        calc sweepOnce nb = ((sweepOnce nb).1, (sweepOnce nb).2) := rfl
        _ = (nb, false) := by rw [h1, h2]

theorem deduceLoop_fuel_mono (fuel fuel' : Nat) (nb : DetectiveNotebook)
    (h : gridMeasure nb < fuel) (hle : fuel ≤ fuel') :
    deduceLoop fuel' nb = deduceLoop fuel nb := by
  induction fuel generalizing nb fuel' with
  | zero => cases h
  | succ f ih =>
      cases fuel' with
      | zero => cases hle
      | succ f' =>
          rw [deduceLoop_succ, deduceLoop_succ]
          by_cases hc : (sweepOnce nb).2 = true
          · rw [if_pos hc, if_pos hc]
            exact ih f' _ (Nat.lt_of_lt_of_le (gridMeasure_sweepOnce_lt nb hc)
              (Nat.le_of_lt_succ h)) (Nat.le_of_succ_le_succ hle)
          · rw [if_neg hc, if_neg hc]

theorem check_deductions_fix (nb : DetectiveNotebook) :
    sweepOnce (check_deductions nb) = (check_deductions nb, false) :=
  deduceLoop_fix _ nb (Nat.lt_succ_self _)

theorem check_deductions_of_fix (nb : DetectiveNotebook)
    (h : sweepOnce nb = (nb, false)) : check_deductions nb = nb := by
  unfold check_deductions
  rw [deduceLoop_succ, h]
  simp

theorem check_deductions_all_players (nb : DetectiveNotebook) :
    (check_deductions nb).all_players = nb.all_players :=
  deduceLoop_all_players _ nb

theorem dictGet?_map_entries (l : List (String × β)) (g : β → γ) (k : String) :
    dictGet? (l.map (fun q => (q.1, g q.2))) k = (dictGet? l k).map g := by
  induction l with
  | nil => rfl
  | cons q l ih =>
      rw [List.map_cons]
      by_cases h : q.1 = k <;> simp [dictGet?_cons, h, ih]

theorem sweepOnce_get (nb : DetectiveNotebook) (k : String) :
    dictGet? (sweepOnce nb).1.entries k
      = (dictGet? nb.entries k).map (fun e => (sweepEntry nb.all_players e).1) := by
  show dictGet?
      (nb.entries.map (fun q => (q.1, (sweepEntry nb.all_players q.2).1))) k
    = (dictGet? nb.entries k).map (fun e => (sweepEntry nb.all_players e).1)
  exact dictGet?_map_entries nb.entries (fun e => (sweepEntry nb.all_players e).1) k

theorem deduceLoop_get (players : List String) (P : NotebookEntry → Prop)
    (hP : ∀ e, P e → P (sweepEntry players e).1) :
    ∀ (fuel : Nat) (nb : DetectiveNotebook), nb.all_players = players →
      ∀ (k : String) (e : NotebookEntry), dictGet? nb.entries k = some e → P e →
      ∃ e', dictGet? (deduceLoop fuel nb).entries k = some e' ∧ P e' := by
  intro fuel
  induction fuel with
  | zero =>
      intro nb _ k e he hPe
      exact ⟨e, he, hPe⟩
  | succ f ih =>
      intro nb hpl k e he hPe
      have hget : dictGet? (sweepOnce nb).1.entries k
          = some (sweepEntry players e).1 := by
        rw [sweepOnce_get, he, hpl]
        rfl
      rw [deduceLoop_succ]
      by_cases hc : (sweepOnce nb).2 = true
      · rw [if_pos hc]
        exact ih (sweepOnce nb).1 (by rw [sweepOnce_all_players, hpl]) k _ hget
          (hP e hPe)
      · rw [if_neg hc]
        exact ⟨_, hget, hP e hPe⟩

theorem deduceLoop_pairs (players : List String) (k : String)
    (P : NotebookEntry → Prop)
    (hP : ∀ e, P e → P (sweepEntry players e).1) :
    ∀ (fuel : Nat) (nb : DetectiveNotebook), nb.all_players = players →
      (∀ q ∈ nb.entries, q.1 = k → P q.2) →
      ∀ q ∈ (deduceLoop fuel nb).entries, q.1 = k → P q.2 := by
  intro fuel
  induction fuel with
  | zero =>
      intro nb _ h
      exact h
  | succ f ih =>
      intro nb hpl h
      have hstep : ∀ q ∈ (sweepOnce nb).1.entries, q.1 = k → P q.2 := by
        intro q hq hk
        rcases List.mem_map.1 hq with ⟨q0, hq0, rfl⟩
        rw [hpl]
        exact hP q0.2 (h q0 hq0 hk)
      rw [deduceLoop_succ]
      by_cases hc : (sweepOnce nb).2 = true
      · rw [if_pos hc]
        exact ih (sweepOnce nb).1 (by rw [sweepOnce_all_players, hpl]) hstep
      · rw [if_neg hc]
        exact hstep

/-! ## Record-update helper equalities -/

theorem entry_set_ps (e : NotebookEntry) (v : List (String × CardStatus))
    (h : e.player_status = v) : { e with player_status := v } = e := by
  cases e
  cases h
  rfl

theorem entry_set_env (e : NotebookEntry) (v : CardStatus)
    (h : e.envelope_status = v) : { e with envelope_status := v } = e := by
  cases e
  cases h
  rfl

theorem nb_set_entries (nb : DetectiveNotebook) (v : List (String × NotebookEntry))
    (h : nb.entries = v) : { nb with entries := v } = nb := by
  cases nb
  cases h
  rfl

/-! ## Lemmas on the mark-others loop of mark_card -/

theorem markOthers_nil (o : String) (ps : List (String × CardStatus)) :
    markOthers [] o ps = ps := rfl

theorem markOthers_cons (p : String) (rest : List String) (o : String)
    (ps : List (String × CardStatus)) :
    markOthers (p :: rest) o ps
      = markOthers rest o (if p ≠ o then dictSet ps p CardStatus.notHas else ps) := by
  unfold markOthers
  rw [List.foldl_cons]

theorem markOthers_get_o (players : List String) (o : String)
    (ps : List (String × CardStatus)) :
    dictGet? (markOthers players o ps) o = dictGet? ps o := by
  induction players generalizing ps with
  | nil => rfl
  | cons p rest ih =>
      rw [markOthers_cons]
      by_cases hp : p ≠ o
      · rw [if_pos hp, ih]
        exact dictGet?_dictSet_ne ps p o CardStatus.notHas (fun h => hp h.symm)
      · rw [if_neg hp, ih]

theorem markOthers_contains_o (players : List String) (o : String)
    (ps : List (String × CardStatus)) :
    dictContains (markOthers players o ps) o = dictContains ps o := by
  induction players generalizing ps with
  | nil => rfl
  | cons p rest ih =>
      rw [markOthers_cons]
      by_cases hp : p ≠ o
      · rw [if_pos hp, ih]
        exact dictContains_dictSet_ne ps p o CardStatus.notHas (fun h => hp h.symm)
      · rw [if_neg hp, ih]

theorem markOthers_allAt_o (players : List String) (o : String)
    (ps : List (String × CardStatus)) (v : CardStatus)
    (h : allAt ps o v) : allAt (markOthers players o ps) o v := by
  induction players generalizing ps with
  | nil => exact h
  | cons p rest ih =>
      rw [markOthers_cons]
      by_cases hp : p ≠ o
      · rw [if_pos hp]
        exact ih _ (allAt_dictSet_ne ps p o CardStatus.notHas v (fun h' => hp h'.symm) h)
      · rw [if_neg hp]
        exact ih _ h

theorem markOthers_preserve_done (players : List String) (o p : String)
    (ps : List (String × CardStatus))
    (h1 : allAt ps p CardStatus.notHas) (h2 : dictContains ps p = true) :
    allAt (markOthers players o ps) p CardStatus.notHas
      ∧ dictContains (markOthers players o ps) p = true := by
  induction players generalizing ps with
  | nil => exact ⟨h1, h2⟩
  | cons q rest ih =>
      rw [markOthers_cons]
      by_cases hq : q ≠ o
      · rw [if_pos hq]
        by_cases hqp : q = p
        · subst hqp
          exact ih _ (allAt_dictSet_self ps q CardStatus.notHas)
            (dictContains_dictSet_self ps q CardStatus.notHas)
        · exact ih _
            (allAt_dictSet_ne ps q p CardStatus.notHas CardStatus.notHas
              (fun h' => hqp h'.symm) h1)
            (dictContains_dictSet_mono ps q p CardStatus.notHas h2)
      · rw [if_neg hq]
        exact ih _ h1 h2

theorem markOthers_done (players : List String) (o : String)
    (ps : List (String × CardStatus)) :
    ∀ p ∈ players, p ≠ o →
      allAt (markOthers players o ps) p CardStatus.notHas
        ∧ dictContains (markOthers players o ps) p = true := by
  induction players generalizing ps with
  | nil => intro p hp; cases hp
  | cons q rest ih =>
      intro p hp hpo
      rw [markOthers_cons]
      rcases List.mem_cons.1 hp with rfl | hp'
      · rw [if_pos hpo]
        exact markOthers_preserve_done rest o p _
          (allAt_dictSet_self ps p CardStatus.notHas)
          (dictContains_dictSet_self ps p CardStatus.notHas)
      · by_cases hq : q ≠ o
        · rw [if_pos hq]
          exact ih _ p hp' hpo
        · rw [if_neg hq]
          exact ih _ p hp' hpo

theorem markOthers_id (players : List String) (o : String)
    (ps : List (String × CardStatus))
    (h : ∀ p ∈ players, p ≠ o →
      dictContains ps p = true ∧ allAt ps p CardStatus.notHas) :
    markOthers players o ps = ps := by
  induction players with
  | nil => rfl
  | cons q rest ih =>
      rw [markOthers_cons]
      by_cases hq : q ≠ o
      · rw [if_pos hq]
        have hh := h q (List.mem_cons_self q rest) hq
        rw [dictSet_id ps q CardStatus.notHas hh.2 hh.1]
        exact ih (fun p hp hpo => h p (List.mem_cons_of_mem q hp) hpo)
      · rw [if_neg hq]
        exact ih (fun p hp hpo => h p (List.mem_cons_of_mem q hp) hpo)

/-! ## Branch equations for mark_card and mark_not_has -/

theorem markFinish_ne (players : List String) (o : String) (e : NotebookEntry)
    (h : o ≠ "ENVELOPE") :
    markFinish players o e
      = { e with
            player_status := markOthers players o e.player_status
            envelope_status := CardStatus.notHas } := by
  unfold markFinish
  rw [if_pos h]

theorem markFinish_env (players : List String) (e : NotebookEntry) :
    markFinish players "ENVELOPE" e
      = { e with player_status := markOthers players "ENVELOPE" e.player_status } := by
  unfold markFinish
  rw [if_neg (by simp)]

theorem mark_card_none (nb : DetectiveNotebook) (card player : String)
    (h : dictGet? nb.entries card = none) :
    mark_card nb card player = (nb, "Error: Unknown card " ++ card) := by
  unfold mark_card
  rw [h]

theorem mark_card_player_eq (nb : DetectiveNotebook) (card player : String)
    (e : NotebookEntry) (he : dictGet? nb.entries card = some e)
    (hc : dictContains e.player_status player = true) :
    mark_card nb card player
      = (check_deductions
          { nb with
              entries := dictSet nb.entries card
                (markFinish nb.all_players player
                  { e with
                      player_status :=
                        dictSet e.player_status player CardStatus.has }) },
         "✓ Marked: " ++ player ++ " has " ++ card) := by
  unfold mark_card
  rw [he]
  show (if dictContains e.player_status player = true then _ else _) = _
  rw [if_pos hc]

theorem mark_card_envelope_eq (nb : DetectiveNotebook) (card player : String)
    (e : NotebookEntry) (he : dictGet? nb.entries card = some e)
    (hc : dictContains e.player_status player = false)
    (hu : strUpper player = "ENVELOPE") :
    mark_card nb card player
      = (check_deductions
          { nb with
              entries := dictSet nb.entries card
                (markFinish nb.all_players player
                  { e with envelope_status := CardStatus.has }) },
         "✓ Marked: " ++ player ++ " has " ++ card) := by
  unfold mark_card
  rw [he]
  show (if dictContains e.player_status player = true then _
    else if strUpper player = "ENVELOPE" then _ else _) = _
  rw [if_neg (by rw [hc]; exact Bool.false_ne_true), if_pos hu]

theorem mark_card_unknown_player (nb : DetectiveNotebook) (card player : String)
    (e : NotebookEntry) (he : dictGet? nb.entries card = some e)
    (hc : dictContains e.player_status player = false)
    (hu : strUpper player ≠ "ENVELOPE") :
    mark_card nb card player = (nb, "Error: Unknown player " ++ player) := by
  unfold mark_card
  rw [he]
  show (if dictContains e.player_status player = true then _
    else if strUpper player = "ENVELOPE" then _ else _) = _
  rw [if_neg (by rw [hc]; exact Bool.false_ne_true), if_neg hu]

theorem mark_not_has_none (nb : DetectiveNotebook) (card player : String)
    (h : dictGet? nb.entries card = none) :
    mark_not_has nb card player = (nb, "Error: Unknown card " ++ card) := by
  unfold mark_not_has
  rw [h]

theorem mark_not_has_eq (nb : DetectiveNotebook) (card player : String)
    (e : NotebookEntry) (he : dictGet? nb.entries card = some e)
    (hc : dictContains e.player_status player = true) :
    mark_not_has nb card player
      = (check_deductions
          { nb with
              entries := dictSet nb.entries card
                { e with
                    player_status :=
                      dictSet e.player_status player CardStatus.notHas } },
         "✗ Marked: " ++ player ++ " does NOT have " ++ card) := by
  unfold mark_not_has
  rw [he]
  show (if dictContains e.player_status player = true then _ else _) = _
  rw [if_pos hc]

theorem mark_not_has_unknown_player (nb : DetectiveNotebook) (card player : String)
    (e : NotebookEntry) (he : dictGet? nb.entries card = some e)
    (hc : dictContains e.player_status player = false) :
    mark_not_has nb card player = (nb, "Error: Unknown player " ++ player) := by
  unfold mark_not_has
  rw [he]
  show (if dictContains e.player_status player = true then _ else _) = _
  rw [if_neg (by rw [hc]; exact Bool.false_ne_true)]

/-! ## Entry tracking through a whole deduction pass -/

theorem check_deductions_get (nb : DetectiveNotebook) (P : NotebookEntry → Prop)
    (hP : ∀ e, P e → P (sweepEntry nb.all_players e).1)
    (k : String) (e : NotebookEntry) (he : dictGet? nb.entries k = some e)
    (hPe : P e) :
    ∃ e', dictGet? (check_deductions nb).entries k = some e' ∧ P e' := by
  unfold check_deductions
  exact deduceLoop_get nb.all_players P hP _ nb rfl k e he hPe

theorem check_deductions_pairs (nb : DetectiveNotebook) (k : String)
    (P : NotebookEntry → Prop)
    (hP : ∀ e, P e → P (sweepEntry nb.all_players e).1)
    (h : ∀ q ∈ nb.entries, q.1 = k → P q.2) :
    ∀ q ∈ (check_deductions nb).entries, q.1 = k → P q.2 := by
  unfold check_deductions
  exact deduceLoop_pairs nb.all_players k P hP _ nb rfl h

theorem allAt_of_pairs (d : List (String × α)) (k : String) (v : α)
    (h : ∀ q ∈ d, q.1 = k → q.2 = v) : allAt d k v := by
  intro q hq hk
  have h2 := h q hq hk
  calc q = (q.1, q.2) := rfl
  _ = (k, v) := by rw [hk, h2]

/-- Full characterization of `mark_card` with a recognized player other than
the exact envelope token: the card's entry (everywhere it is stored) becomes
the player `HAS`, every other rostered player `NOT_HAS` and the envelope
`NOT_HAS`; the deduction pass leaves it untouched and ends in a sweep
fixpoint. -/
theorem mark_card_player_full (nb : DetectiveNotebook) (card o : String)
    (e : NotebookEntry) (he : dictGet? nb.entries card = some e)
    (hc : dictContains e.player_status o = true) (hoE : o ≠ "ENVELOPE") :
    ∃ E, dictGet? (mark_card nb card o).1.entries card = some E
      ∧ allAt (mark_card nb card o).1.entries card E
      ∧ sweepOnce (mark_card nb card o).1 = ((mark_card nb card o).1, false)
      ∧ (mark_card nb card o).1.all_players = nb.all_players
      ∧ E.player_status
          = markOthers nb.all_players o (dictSet e.player_status o CardStatus.has)
      ∧ E.envelope_status = CardStatus.notHas := by
  have he3 : markFinish nb.all_players o
      { e with player_status := dictSet e.player_status o CardStatus.has }
      = { e with
            player_status :=
              markOthers nb.all_players o (dictSet e.player_status o CardStatus.has)
            envelope_status := CardStatus.notHas } := by
    rw [markFinish_ne _ _ _ hoE]
  rw [mark_card_player_eq nb card o e he hc, he3]
  refine ⟨{ e with
      player_status :=
        markOthers nb.all_players o (dictSet e.player_status o CardStatus.has)
      envelope_status := CardStatus.notHas }, ?_, ?_,
    check_deductions_fix _, check_deductions_all_players _, rfl, rfl⟩
  · rcases check_deductions_get
      { nb with
          entries := dictSet nb.entries card
            { e with
                player_status :=
                  markOthers nb.all_players o (dictSet e.player_status o CardStatus.has)
                envelope_status := CardStatus.notHas } }
      (fun e2 => e2 = { e with
          player_status :=
            markOthers nb.all_players o (dictSet e.player_status o CardStatus.has)
          envelope_status := CardStatus.notHas })
      (fun e2 h2 => by rw [h2, sweepEntry_id_of_env_notHas _ _ rfl])
      card _ (dictGet?_dictSet_self nb.entries card _) rfl with ⟨e2, hg, rfl⟩
    exact hg
  · apply allAt_of_pairs
    refine check_deductions_pairs
      { nb with
          entries := dictSet nb.entries card
            { e with
                player_status :=
                  markOthers nb.all_players o (dictSet e.player_status o CardStatus.has)
                envelope_status := CardStatus.notHas } }
      card
      (fun e2 => e2 = { e with
          player_status :=
            markOthers nb.all_players o (dictSet e.player_status o CardStatus.has)
          envelope_status := CardStatus.notHas })
      (fun e2 h2 => by rw [h2, sweepEntry_id_of_env_notHas _ _ rfl]) ?_
    intro q hq hk
    rw [allAt_dictSet_self nb.entries card _ q hq hk]

/-- Full characterization of `mark_card` with the exact envelope token (and
no player of that name on the card's entry): the entry becomes envelope
`HAS` with every rostered player `NOT_HAS`; the deduction pass leaves it
untouched and ends in a sweep fixpoint. -/
theorem mark_card_envelope_exact_full (nb : DetectiveNotebook) (card : String)
    (e : NotebookEntry) (he : dictGet? nb.entries card = some e)
    (hc : dictContains e.player_status "ENVELOPE" = false) :
    ∃ E, dictGet? (mark_card nb card "ENVELOPE").1.entries card = some E
      ∧ allAt (mark_card nb card "ENVELOPE").1.entries card E
      ∧ sweepOnce (mark_card nb card "ENVELOPE").1
          = ((mark_card nb card "ENVELOPE").1, false)
      ∧ (mark_card nb card "ENVELOPE").1.all_players = nb.all_players
      ∧ E.player_status = markOthers nb.all_players "ENVELOPE" e.player_status
      ∧ E.envelope_status = CardStatus.has := by
  have he3 : markFinish nb.all_players "ENVELOPE"
      { e with envelope_status := CardStatus.has }
      = { e with
            player_status := markOthers nb.all_players "ENVELOPE" e.player_status
            envelope_status := CardStatus.has } := by
    rw [markFinish_env]
  rw [mark_card_envelope_eq nb card "ENVELOPE" e he hc (by decide), he3]
  have hclean : ∀ p ∈ nb.all_players,
      dictGet? (markOthers nb.all_players "ENVELOPE" e.player_status) p = none
      ∨ dictGet? (markOthers nb.all_players "ENVELOPE" e.player_status) p
          = some CardStatus.notHas := by
    intro p hp
    by_cases hpe : p = "ENVELOPE"
    · subst hpe
      left
      rw [markOthers_get_o]
      exact dictGet?_eq_none _ _ hc
    · right
      have hd := markOthers_done nb.all_players "ENVELOPE" e.player_status p hp hpe
      exact dictGet?_of_allAt _ p _ hd.1 hd.2
  refine ⟨{ e with
      player_status := markOthers nb.all_players "ENVELOPE" e.player_status
      envelope_status := CardStatus.has }, ?_, ?_,
    check_deductions_fix _, check_deductions_all_players _, rfl, rfl⟩
  · rcases check_deductions_get
      { nb with
          entries := dictSet nb.entries card
            { e with
                player_status := markOthers nb.all_players "ENVELOPE" e.player_status
                envelope_status := CardStatus.has } }
      (fun e2 => e2 = { e with
          player_status := markOthers nb.all_players "ENVELOPE" e.player_status
          envelope_status := CardStatus.has })
      (fun e2 h2 => by rw [h2, sweepEntry_id_of_env_has_clean _ _ rfl hclean])
      card _ (dictGet?_dictSet_self nb.entries card _) rfl with ⟨e2, hg, rfl⟩
    exact hg
  · apply allAt_of_pairs
    refine check_deductions_pairs
      { nb with
          entries := dictSet nb.entries card
            { e with
                player_status := markOthers nb.all_players "ENVELOPE" e.player_status
                envelope_status := CardStatus.has } }
      card
      (fun e2 => e2 = { e with
          player_status := markOthers nb.all_players "ENVELOPE" e.player_status
          envelope_status := CardStatus.has })
      (fun e2 h2 => by rw [h2, sweepEntry_id_of_env_has_clean _ _ rfl hclean]) ?_
    intro q hq hk
    rw [allAt_dictSet_self nb.entries card _ q hq hk]

/-- Full characterization of `mark_card` with a non-exact capitalization of
the envelope token (accepted by `upper()`, but then failing the
case-sensitive reset test): the card's entry ends with every rostered player
`NOT_HAS` and the envelope `NOT_HAS` — the `HAS` just written for the
envelope is immediately overwritten. -/
theorem mark_card_envelope_other_full (nb : DetectiveNotebook) (card o : String)
    (e : NotebookEntry) (he : dictGet? nb.entries card = some e)
    (hc : dictContains e.player_status o = false)
    (hu : strUpper o = "ENVELOPE") (hoE : o ≠ "ENVELOPE") :
    ∃ E, dictGet? (mark_card nb card o).1.entries card = some E
      ∧ allAt (mark_card nb card o).1.entries card E
      ∧ sweepOnce (mark_card nb card o).1 = ((mark_card nb card o).1, false)
      ∧ (mark_card nb card o).1.all_players = nb.all_players
      ∧ E.player_status = markOthers nb.all_players o e.player_status
      ∧ E.envelope_status = CardStatus.notHas := by
  have he3 : markFinish nb.all_players o { e with envelope_status := CardStatus.has }
      = { e with
            player_status := markOthers nb.all_players o e.player_status
            envelope_status := CardStatus.notHas } := by
    rw [markFinish_ne _ _ _ hoE]
  rw [mark_card_envelope_eq nb card o e he hc hu, he3]
  refine ⟨{ e with
      player_status := markOthers nb.all_players o e.player_status
      envelope_status := CardStatus.notHas }, ?_, ?_,
    check_deductions_fix _, check_deductions_all_players _, rfl, rfl⟩
  · rcases check_deductions_get
      { nb with
          entries := dictSet nb.entries card
            { e with
                player_status := markOthers nb.all_players o e.player_status
                envelope_status := CardStatus.notHas } }
      (fun e2 => e2 = { e with
          player_status := markOthers nb.all_players o e.player_status
          envelope_status := CardStatus.notHas })
      (fun e2 h2 => by rw [h2, sweepEntry_id_of_env_notHas _ _ rfl])
      card _ (dictGet?_dictSet_self nb.entries card _) rfl with ⟨e2, hg, rfl⟩
    exact hg
  · apply allAt_of_pairs
    refine check_deductions_pairs
      { nb with
          entries := dictSet nb.entries card
            { e with
                player_status := markOthers nb.all_players o e.player_status
                envelope_status := CardStatus.notHas } }
      card
      (fun e2 => e2 = { e with
          player_status := markOthers nb.all_players o e.player_status
          envelope_status := CardStatus.notHas })
      (fun e2 h2 => by rw [h2, sweepEntry_id_of_env_notHas _ _ rfl]) ?_
    intro q hq hk
    rw [allAt_dictSet_self nb.entries card _ q hq hk]

/-- `mark_not_has` writes `NOT_HAS` for the (card, player) pair regardless of
its prior value, and the deduction pass never changes it back. -/
theorem mark_not_has_state (nb : DetectiveNotebook) (card player : String)
    (e : NotebookEntry) (he : dictGet? nb.entries card = some e)
    (hc : dictContains e.player_status player = true) :
    playerStatusOf (mark_not_has nb card player).1 card player
      = some CardStatus.notHas := by
  rw [mark_not_has_eq nb card player e he hc]
  rcases check_deductions_get
      { nb with
          entries := dictSet nb.entries card
            { e with
                player_status := dictSet e.player_status player CardStatus.notHas } }
      (fun e' => allAt e'.player_status player CardStatus.notHas
        ∧ dictContains e'.player_status player = true)
      (fun e' h' => ⟨sweepEntry_allAt _ e' player h'.1,
        by rw [sweepEntry_contains]; exact h'.2⟩)
      card _ (dictGet?_dictSet_self nb.entries card _)
      ⟨allAt_dictSet_self e.player_status player CardStatus.notHas,
       dictContains_dictSet_self e.player_status player CardStatus.notHas⟩
    with ⟨e', hg, hP⟩
  unfold playerStatusOf
  rw [hg]
  exact dictGet?_of_allAt _ player _ hP.1 hP.2

/-! ## The elimination fold: mark_not_has over the whole roster -/

theorem dictGet?_mem (d : List (String × α)) (k : String) (v : α)
    (h : dictGet? d k = some v) : ∃ q ∈ d, q.1 = k ∧ q.2 = v := by
  unfold dictGet? at h
  rcases Option.map_eq_some'.1 h with ⟨q, hq, h2⟩
  exact ⟨q, List.mem_of_find?_eq_some hq, by simpa using List.find?_some hq, h2⟩

theorem mark_not_has_inv_step (card : String) (allP : List String)
    (done : String → Prop) (nb : DetectiveNotebook) (p : String)
    (hpl : nb.all_players = allP) (hp : p ∈ allP)
    (hinv : ∃ e, dictGet? nb.entries card = some e
      ∧ (∀ x ∈ allP, dictContains e.player_status x = true)
      ∧ (∀ q ∈ e.player_status, q.1 ∈ allP)
      ∧ e.envelope_status ≠ CardStatus.notHas
      ∧ (∀ x, done x → allAt e.player_status x CardStatus.notHas)) :
    (∃ e, dictGet? (mark_not_has nb card p).1.entries card = some e
      ∧ (∀ x ∈ allP, dictContains e.player_status x = true)
      ∧ (∀ q ∈ e.player_status, q.1 ∈ allP)
      ∧ e.envelope_status ≠ CardStatus.notHas
      ∧ (∀ x, done x ∨ x = p → allAt e.player_status x CardStatus.notHas))
    ∧ sweepOnce (mark_not_has nb card p).1 = ((mark_not_has nb card p).1, false)
    ∧ (mark_not_has nb card p).1.all_players = allP := by
  subst hpl
  rcases hinv with ⟨e, he, hcont, hkeys, henv, hdone⟩
  have hc : dictContains e.player_status p = true := hcont p hp
  rw [mark_not_has_eq nb card p e he hc]
  have hP1 : (∀ x ∈ nb.all_players,
        dictContains (dictSet e.player_status p CardStatus.notHas) x = true)
      ∧ (∀ q ∈ dictSet e.player_status p CardStatus.notHas, q.1 ∈ nb.all_players)
      ∧ (∀ x, done x ∨ x = p →
          allAt (dictSet e.player_status p CardStatus.notHas) x CardStatus.notHas) := by
    refine ⟨?_, ?_, ?_⟩
    · intro x hx
      by_cases hxp : x = p
      · subst hxp
        exact dictContains_dictSet_self _ x _
      · rw [dictContains_dictSet_ne _ p x _ hxp]
        exact hcont x hx
    · intro q hq
      rcases mem_dictSet _ p CardStatus.notHas q hq with rfl | hq'
      · exact hp
      · exact hkeys q hq'
    · intro x hx
      by_cases hxp : x = p
      · subst hxp
        exact allAt_dictSet_self _ x _
      · rcases hx with hx | hx
        · exact allAt_dictSet_ne _ p x _ _ hxp (hdone x hx)
        · exact absurd hx hxp
  rcases check_deductions_get
      { nb with
          entries := dictSet nb.entries card
            { e with
                player_status := dictSet e.player_status p CardStatus.notHas } }
      (fun e' => (∀ x ∈ nb.all_players, dictContains e'.player_status x = true)
        ∧ (∀ q ∈ e'.player_status, q.1 ∈ nb.all_players)
        ∧ e'.envelope_status ≠ CardStatus.notHas
        ∧ (∀ x, done x ∨ x = p → allAt e'.player_status x CardStatus.notHas))
      (fun e' h' => by
        refine ⟨?_, ?_, ?_, ?_⟩
        · intro x hx
          rw [sweepEntry_contains]
          exact h'.1 x hx
        · exact sweepEntry_keys _ e' nb.all_players (fun x hx => hx) h'.2.1
        · rcases sweepEntry_env_cases
              ({ nb with
                  entries := dictSet nb.entries card
                    { e with
                        player_status :=
                          dictSet e.player_status p CardStatus.notHas } }).all_players
              e' with hc' | hc'
          · rw [hc']
            exact h'.2.2.1
          · rw [hc'.2]
            simp
        · intro x hx
          exact sweepEntry_allAt _ e' x (h'.2.2.2 x hx))
      card _ (dictGet?_dictSet_self nb.entries card _)
      ⟨hP1.1, hP1.2.1, henv, hP1.2.2⟩
    with ⟨e', hg, hPe'⟩
  refine ⟨⟨e', hg, hPe'.1, hPe'.2.1, hPe'.2.2.1, hPe'.2.2.2⟩, ?_, ?_⟩
  · exact check_deductions_fix _
  · rw [check_deductions_all_players]

theorem markNotHasAll_inv (card : String) (allP : List String) :
    ∀ (rest : List String) (nb : DetectiveNotebook) (done : String → Prop),
      nb.all_players = allP → (∀ x ∈ rest, x ∈ allP) →
      (∃ e, dictGet? nb.entries card = some e
        ∧ (∀ x ∈ allP, dictContains e.player_status x = true)
        ∧ (∀ q ∈ e.player_status, q.1 ∈ allP)
        ∧ e.envelope_status ≠ CardStatus.notHas
        ∧ (∀ x, done x → allAt e.player_status x CardStatus.notHas)) →
      (∃ e, dictGet? (rest.foldl (fun acc q => (mark_not_has acc card q).1) nb).entries
            card = some e
        ∧ (∀ x ∈ allP, dictContains e.player_status x = true)
        ∧ (∀ q ∈ e.player_status, q.1 ∈ allP)
        ∧ e.envelope_status ≠ CardStatus.notHas
        ∧ (∀ x, done x ∨ x ∈ rest → allAt e.player_status x CardStatus.notHas))
      ∧ (rest ≠ [] →
          sweepOnce (rest.foldl (fun acc q => (mark_not_has acc card q).1) nb)
            = (rest.foldl (fun acc q => (mark_not_has acc card q).1) nb, false))
      ∧ (rest.foldl (fun acc q => (mark_not_has acc card q).1) nb).all_players = allP := by
  intro rest
  induction rest with
  | nil =>
      intro nb done hpl _ hinv
      refine ⟨?_, fun h => absurd rfl h, hpl⟩
      rcases hinv with ⟨e, he, h1, h2, h3, h4⟩
      refine ⟨e, he, h1, h2, h3, fun x hx => h4 x ?_⟩
      rcases hx with hx | hx
      · exact hx
      · cases hx
  | cons q rest ih =>
      intro nb done hpl hsub hinv
      rw [List.foldl_cons]
      have hstep := mark_not_has_inv_step card allP done nb q hpl
        (hsub q (List.mem_cons_self q rest)) hinv
      have hrest := ih (mark_not_has nb card q).1 (fun x => done x ∨ x = q)
        hstep.2.2 (fun x hx => hsub x (List.mem_cons_of_mem q hx)) hstep.1
      refine ⟨?_, ?_, hrest.2.2⟩
      · rcases hrest.1 with ⟨e, he, h1, h2, h3, h4⟩
        refine ⟨e, he, h1, h2, h3, fun x hx => h4 x ?_⟩
        rcases hx with hx | hx
        · exact Or.inl (Or.inl hx)
        · rcases List.mem_cons.1 hx with rfl | hx'
          · exact Or.inl (Or.inr rfl)
          · exact Or.inr hx'
      · intro _
        cases rest with
        | nil =>
            rw [List.foldl_nil]
            exact hstep.2.1
        | cons r rs =>
            exact hrest.2.1 (by simp)

/-! ## Idempotence of mark_card -/

theorem entry_set_ps_env (e : NotebookEntry) (pv : List (String × CardStatus))
    (ev : CardStatus) (hp : e.player_status = pv) (hv : e.envelope_status = ev) :
    ({ e with
        player_status := pv
        envelope_status := ev } : NotebookEntry) = e := by
  cases e
  cases hp
  cases hv
  rfl

/-- A second `mark_card` that rewrites the card's entry to the very value it
already holds everywhere, on a grid that is already a fixpoint of the
deduction sweep, returns the grid unchanged. -/
theorem mark_card_collapse (S1 : DetectiveNotebook) (card o : String)
    (E : NotebookEntry)
    (hg : dictGet? S1.entries card = some E)
    (hpairs : allAt S1.entries card E)
    (hfix : sweepOnce S1 = (S1, false))
    (hbranch : mark_card S1 card o
       = (check_deductions { S1 with entries := dictSet S1.entries card E },
          "✓ Marked: " ++ o ++ " has " ++ card)) :
    (mark_card S1 card o).1 = S1 := by
  rw [hbranch]
  show check_deductions { S1 with entries := dictSet S1.entries card E } = S1
  rw [dictSet_id S1.entries card E hpairs (dictGet?_isSome _ _ _ hg),
    nb_set_entries S1 _ rfl]
  exact check_deductions_of_fix S1 hfix

/-- `mark_card` is idempotent on the grid: calling it twice with the same
card and owner leaves the notebook exactly as one call does.  The hypothesis
excludes the degenerate roster in which the card's entry has a player
literally named "ENVELOPE", whom the owner classification of the source
cannot tell apart from the solution token. -/
theorem mark_card_idem (nb : DetectiveNotebook) (card o : String)
    (hE : ∀ e, dictGet? nb.entries card = some e →
      dictContains e.player_status "ENVELOPE" = false) :
    (mark_card (mark_card nb card o).1 card o).1 = (mark_card nb card o).1 := by
  cases he : dictGet? nb.entries card with
  | none =>
      rw [mark_card_none nb card o he]
      show (mark_card nb card o).1 = nb
      rw [mark_card_none nb card o he]
  | some e =>
      by_cases hc : dictContains e.player_status o = true
      · -- recognized-player branch
        have hoE : o ≠ "ENVELOPE" := by
          intro h2
          subst h2
          rw [hE e he] at hc
          cases hc
        rcases mark_card_player_full nb card o e he hc hoE
          with ⟨E, hg, hpairs, hfix, hap, hEps, hEenv⟩
        have hconto : dictContains E.player_status o = true := by
          rw [hEps, markOthers_contains_o]
          exact dictContains_dictSet_self e.player_status o CardStatus.has
        have hallo : allAt E.player_status o CardStatus.has := by
          rw [hEps]
          exact markOthers_allAt_o nb.all_players o _ CardStatus.has
            (allAt_dictSet_self e.player_status o CardStatus.has)
        have hdone2 : ∀ p ∈ nb.all_players, p ≠ o →
            dictContains E.player_status p = true
              ∧ allAt E.player_status p CardStatus.notHas := by
          intro p hp hpo
          rw [hEps]
          have hd := markOthers_done nb.all_players o
            (dictSet e.player_status o CardStatus.has) p hp hpo
          exact ⟨hd.2, hd.1⟩
        apply mark_card_collapse _ card o E hg hpairs hfix
        rw [mark_card_player_eq _ card o E hg hconto]
        have hMF : markFinish (mark_card nb card o).1.all_players o
            { E with
                player_status := dictSet E.player_status o CardStatus.has } = E := by
          rw [dictSet_id E.player_status o CardStatus.has hallo hconto,
            entry_set_ps E _ rfl, markFinish_ne _ _ _ hoE, hap,
            markOthers_id nb.all_players o E.player_status hdone2]
          exact entry_set_ps_env E _ _ rfl hEenv
        rw [hMF]
      · -- envelope-token or unknown-owner branch
        have hc2 : dictContains e.player_status o = false := Bool.eq_false_iff.2 hc
        by_cases hu : strUpper o = "ENVELOPE"
        · by_cases hoE : o = "ENVELOPE"
          · subst hoE
            rcases mark_card_envelope_exact_full nb card e he hc2
              with ⟨E, hg, hpairs, hfix, hap, hEps, hEenv⟩
            have hnc : dictContains E.player_status "ENVELOPE" = false := by
              rw [hEps, markOthers_contains_o]
              exact hc2
            have hdone2 : ∀ p ∈ nb.all_players, p ≠ "ENVELOPE" →
                dictContains E.player_status p = true
                  ∧ allAt E.player_status p CardStatus.notHas := by
              intro p hp hpo
              rw [hEps]
              have hd := markOthers_done nb.all_players "ENVELOPE"
                e.player_status p hp hpo
              exact ⟨hd.2, hd.1⟩
            apply mark_card_collapse _ card "ENVELOPE" E hg hpairs hfix
            rw [mark_card_envelope_eq _ card "ENVELOPE" E hg hnc (by decide)]
            have hMF : markFinish (mark_card nb card "ENVELOPE").1.all_players
                "ENVELOPE" { E with envelope_status := CardStatus.has } = E := by
              rw [entry_set_env E _ hEenv, markFinish_env, hap,
                markOthers_id nb.all_players "ENVELOPE" E.player_status hdone2]
            rw [hMF]
          · rcases mark_card_envelope_other_full nb card o e he hc2 hu hoE
              with ⟨E, hg, hpairs, hfix, hap, hEps, hEenv⟩
            have hnc : dictContains E.player_status o = false := by
              rw [hEps, markOthers_contains_o]
              exact hc2
            have hdone2 : ∀ p ∈ nb.all_players, p ≠ o →
                dictContains E.player_status p = true
                  ∧ allAt E.player_status p CardStatus.notHas := by
              intro p hp hpo
              rw [hEps]
              have hd := markOthers_done nb.all_players o e.player_status p hp hpo
              exact ⟨hd.2, hd.1⟩
            apply mark_card_collapse _ card o E hg hpairs hfix
            rw [mark_card_envelope_eq _ card o E hg hnc hu]
            have hMF : markFinish (mark_card nb card o).1.all_players o
                { E with envelope_status := CardStatus.has } = E := by
              rw [markFinish_ne _ _ _ hoE]
              show ({ E with
                  player_status :=
                    markOthers (mark_card nb card o).1.all_players o E.player_status
                  envelope_status := CardStatus.notHas } : NotebookEntry) = E
              rw [hap, markOthers_id nb.all_players o E.player_status hdone2]
              exact entry_set_ps_env E _ _ rfl hEenv
            rw [hMF]
        · -- unknown owner: no mutation at all
          rw [mark_card_unknown_player nb card o e he hc2 hu]
          show (mark_card nb card o).1 = nb
          rw [mark_card_unknown_player nb card o e he hc2 hu]

/-! ## Lemmas on the validation queries -/

theorem accusationWarnings_ne_nil (nb : DetectiveNotebook) (card : String) :
    accusationWarnings nb card ≠ [] ↔ cardKnownOut nb card = true := by
  unfold accusationWarnings cardKnownOut
  cases hg : dictGet? nb.entries card with
  | none => simp
  | some e =>
      by_cases h1 : anyPlayerHas e = true
      · simp [h1]
      · by_cases h2 : e.envelope_status = CardStatus.notHas <;>
          simp [Bool.eq_false_iff.2 h1, h1, h2]

theorem accusationWarnings_none (nb : DetectiveNotebook) (card : String)
    (h : dictGet? nb.entries card = none) : accusationWarnings nb card = [] := by
  unfold accusationWarnings
  rw [h]

theorem suggestionFlag_wasted (nb : DetectiveNotebook) (card : String) :
    (suggestionFlag nb card).1
      = if cardKnownOut nb card = true then [card] else [] := by
  unfold suggestionFlag cardKnownOut
  cases hg : dictGet? nb.entries card with
  | none => simp
  | some e =>
      by_cases h1 : anyPlayerHas e = true
      · simp [h1]
      · by_cases h2 : e.envelope_status = CardStatus.notHas <;>
          simp [Bool.eq_false_iff.2 h1, h1, h2]

theorem suggestionFlag_warn_nil (nb : DetectiveNotebook) (card : String) :
    (suggestionFlag nb card).2 = [] ↔ cardKnownOut nb card = false := by
  unfold suggestionFlag cardKnownOut
  cases hg : dictGet? nb.entries card with
  | none => simp
  | some e =>
      by_cases h1 : anyPlayerHas e = true
      · simp [h1]
      · by_cases h2 : e.envelope_status = CardStatus.notHas <;>
          simp [Bool.eq_false_iff.2 h1, h1, h2]

theorem suggestionFlag_none (nb : DetectiveNotebook) (card : String)
    (h : dictGet? nb.entries card = none) : suggestionFlag nb card = ([], []) := by
  unfold suggestionFlag
  rw [h]

theorem dictGet?_of_mem_nodup (d : List (String × α)) (q : String × α)
    (hnodup : (d.map Prod.fst).Nodup) (hq : q ∈ d) : dictGet? d q.1 = some q.2 := by
  induction d with
  | nil => cases hq
  | cons p d ih =>
      rw [List.map_cons, List.nodup_cons] at hnodup
      rcases List.mem_cons.1 hq with rfl | hq2
      · rw [dictGet?_cons, if_pos rfl]
      · rw [dictGet?_cons]
        have hne : p.1 ≠ q.1 := by
          intro h
          exact hnodup.1 (h ▸ List.mem_map_of_mem Prod.fst hq2)
        rw [if_neg hne]
        exact ih hnodup.2 hq2

theorem mem_alternativesFor (nb : DetectiveNotebook) (ty c : String)
    (hnodup : (nb.entries.map Prod.fst).Nodup)
    (hc : c ∈ alternativesFor nb ty) :
    goodCandidate nb c ∧ cardKnownOut nb c = false := by
  unfold alternativesFor at hc
  rcases List.mem_map.1 hc with ⟨q, hq, rfl⟩
  have hmem := List.mem_filter.1 hq
  have hget : dictGet? nb.entries q.1 = some q.2 :=
    dictGet?_of_mem_nodup nb.entries q hnodup hmem.1
  have hprops := hmem.2
  simp only [decide_eq_true_eq] at hprops
  rcases hprops with ⟨hty, hsolved, henv, hany⟩
  have hanyf : anyPlayerHas q.2 = false := Bool.eq_false_iff.2 hany
  have henvhas : q.2.envelope_status ≠ CardStatus.has := by
    intro h
    apply hsolved
    unfold NotebookEntry.is_solved
    rw [h]
    simp
  constructor
  · intro e2 he2
    rw [hget] at he2
    cases he2
    exact ⟨hanyf, henvhas, henv⟩
  · unfold cardKnownOut
    rw [hget]
    show (anyPlayerHas q.2 || decide (q.2.envelope_status = CardStatus.notHas)) = false
    rw [hanyf]
    simp [henv]

theorem validate_accusation_thm (nb : DetectiveNotebook) (suspect weapon room : String) :
    ((validate_accusation nb suspect weapon room).valid = false
        ∧ (validate_accusation nb suspect weapon room).warnings ≠ []
      ↔ cardKnownOut nb suspect = true ∨ cardKnownOut nb weapon = true
        ∨ cardKnownOut nb room = true)
    ∧ (¬ (cardKnownOut nb suspect = true ∨ cardKnownOut nb weapon = true
          ∨ cardKnownOut nb room = true) →
        (validate_accusation nb suspect weapon room).valid = true
          ∧ (validate_accusation nb suspect weapon room).warnings = [])
    ∧ (validate_accusation nb suspect weapon room).recommendation
        = get_accusation_recommendation nb := by
  have hiff : accusationWarnings nb suspect ++ accusationWarnings nb weapon
        ++ accusationWarnings nb room ≠ []
      ↔ cardKnownOut nb suspect = true ∨ cardKnownOut nb weapon = true
        ∨ cardKnownOut nb room = true := by
    rw [← accusationWarnings_ne_nil, ← accusationWarnings_ne_nil,
      ← accusationWarnings_ne_nil]
    simp [List.append_eq_nil]
    tauto
  unfold validate_accusation
  by_cases hw : accusationWarnings nb suspect ++ accusationWarnings nb weapon
      ++ accusationWarnings nb room ≠ []
  · rw [if_pos hw]
    refine ⟨?_, ?_, rfl⟩
    · simp only [true_and]
      constructor
      · intro _
        exact hiff.1 hw
      · intro _
        exact hw
    · intro hn
      exact absurd (hiff.1 hw) hn
  · rw [if_neg hw]
    refine ⟨?_, fun _ => ⟨rfl, rfl⟩, rfl⟩
    constructor
    · intro h
      cases h.1
    · intro h
      exact absurd (hiff.2 h) hw

theorem validate_suggestion_thm (nb : DetectiveNotebook) (suspect weapon room : String)
    (hnodup : (nb.entries.map Prod.fst).Nodup) :
    (validate_suggestion nb suspect weapon room).wasted_cards
        = [suspect, weapon, room].filter (fun c => cardKnownOut nb c)
    ∧ (∀ c, (c ∈ (validate_suggestion nb suspect weapon room).better_suspects
          ∨ c ∈ (validate_suggestion nb suspect weapon room).better_weapons) →
        goodCandidate nb c
          ∧ c ∉ (validate_suggestion nb suspect weapon room).wasted_cards) := by
  have hfilter : [suspect, weapon, room].filter (fun c => cardKnownOut nb c)
      = (suggestionFlag nb suspect).1 ++ (suggestionFlag nb weapon).1
        ++ (suggestionFlag nb room).1 := by
    rw [suggestionFlag_wasted, suggestionFlag_wasted, suggestionFlag_wasted]
    simp only [List.filter]
    by_cases h1 : cardKnownOut nb suspect = true <;>
      by_cases h2 : cardKnownOut nb weapon = true <;>
        by_cases h3 : cardKnownOut nb room = true <;>
          simp [h1, h2, h3]
  unfold validate_suggestion
  by_cases hw : (suggestionFlag nb suspect).2 ++ (suggestionFlag nb weapon).2
      ++ (suggestionFlag nb room).2 ≠ []
  · rw [if_pos hw]
    refine ⟨hfilter.symm, ?_⟩
    intro c hc
    have hgood : goodCandidate nb c ∧ cardKnownOut nb c = false := by
      rcases hc with hc | hc
      · exact mem_alternativesFor nb "suspect" c hnodup hc
      · exact mem_alternativesFor nb "weapon" c hnodup hc
    refine ⟨hgood.1, ?_⟩
    intro hmem
    rw [← hfilter] at hmem
    have h2 := (List.mem_filter.1 hmem).2
    rw [hgood.2] at h2
    cases h2
  · rw [if_neg hw]
    simp only [not_not] at hw
    rcases List.append_eq_nil.1 hw with ⟨hw12, hw3⟩
    rcases List.append_eq_nil.1 hw12 with ⟨hw1, hw2⟩
    have h1 := (suggestionFlag_warn_nil nb suspect).1 hw1
    have h2 := (suggestionFlag_warn_nil nb weapon).1 hw2
    have h3 := (suggestionFlag_warn_nil nb room).1 hw3
    refine ⟨?_, ?_⟩
    · rw [List.filter]
      simp [h1, h2, h3]
    · intro c hc
      rcases hc with hc | hc <;> cases hc

theorem validation_unknown_names (nb : DetectiveNotebook) (s w r : String)
    (hs : dictGet? nb.entries s = none) (hw : dictGet? nb.entries w = none)
    (hr : dictGet? nb.entries r = none) :
    validate_accusation nb s w r
      = { valid := true, warnings := [],
          recommendation := get_accusation_recommendation nb,
          message := "Accusation is consistent with your notebook knowledge" }
    ∧ validate_suggestion nb s w r
      = { valid := true, warnings := [], wasted_cards := [],
          better_suspects := [], better_weapons := [],
          message := "Good suggestion - all cards are still unknown" } := by
  constructor
  · unfold validate_accusation
    rw [accusationWarnings_none nb s hs, accusationWarnings_none nb w hw,
      accusationWarnings_none nb r hr]
    rw [if_neg (by simp)]
  · unfold validate_suggestion
    rw [suggestionFlag_none nb s hs, suggestionFlag_none nb w hw,
      suggestionFlag_none nb r hr]
    rw [if_neg (by simp)]

/-! ## Lemmas bridging the recommendation scan with the grid-level sets -/

theorem setConfirmed_possible (acc : SolutionScan) (ty name : String) :
    (setConfirmed acc ty name).possible_suspects = acc.possible_suspects
    ∧ (setConfirmed acc ty name).possible_weapons = acc.possible_weapons
    ∧ (setConfirmed acc ty name).possible_rooms = acc.possible_rooms := by
  unfold setConfirmed
  by_cases t1 : ty = "suspect"
  · rw [if_pos t1]
    exact ⟨rfl, rfl, rfl⟩
  · rw [if_neg t1]
    by_cases t2 : ty = "weapon"
    · rw [if_pos t2]
      exact ⟨rfl, rfl, rfl⟩
    · rw [if_neg t2]
      by_cases t3 : ty = "room"
      · rw [if_pos t3]
        exact ⟨rfl, rfl, rfl⟩
      · rw [if_neg t3]
        exact ⟨rfl, rfl, rfl⟩

theorem addPossible_confirmed (acc : SolutionScan) (ty name : String) :
    (addPossible acc ty name).confirmed_suspect = acc.confirmed_suspect
    ∧ (addPossible acc ty name).confirmed_weapon = acc.confirmed_weapon
    ∧ (addPossible acc ty name).confirmed_room = acc.confirmed_room := by
  unfold addPossible
  by_cases t1 : ty = "suspect"
  · rw [if_pos t1]
    exact ⟨rfl, rfl, rfl⟩
  · rw [if_neg t1]
    by_cases t2 : ty = "weapon"
    · rw [if_pos t2]
      exact ⟨rfl, rfl, rfl⟩
    · rw [if_neg t2]
      by_cases t3 : ty = "room"
      · rw [if_pos t3]
        exact ⟨rfl, rfl, rfl⟩
      · rw [if_neg t3]
        exact ⟨rfl, rfl, rfl⟩

theorem addPossible_suspects (acc : SolutionScan) (ty name : String) :
    (addPossible acc ty name).possible_suspects
      = if ty = "suspect" then acc.possible_suspects ++ [name]
        else acc.possible_suspects := by
  unfold addPossible
  by_cases t1 : ty = "suspect"
  · rw [if_pos t1, if_pos t1]
  · rw [if_neg t1, if_neg t1]
    by_cases t2 : ty = "weapon"
    · rw [if_pos t2]
    · rw [if_neg t2]
      by_cases t3 : ty = "room"
      · rw [if_pos t3]
      · rw [if_neg t3]

theorem addPossible_weapons (acc : SolutionScan) (ty name : String) :
    (addPossible acc ty name).possible_weapons
      = if ty = "weapon" then acc.possible_weapons ++ [name]
        else acc.possible_weapons := by
  unfold addPossible
  by_cases t1 : ty = "suspect"
  · rw [if_pos t1, if_neg (t1 ▸ (by decide : ("suspect" : String) ≠ "weapon"))]
  · rw [if_neg t1]
    by_cases t2 : ty = "weapon"
    · rw [if_pos t2, if_pos t2]
    · rw [if_neg t2, if_neg t2]
      by_cases t3 : ty = "room"
      · rw [if_pos t3]
      · rw [if_neg t3]

theorem addPossible_rooms (acc : SolutionScan) (ty name : String) :
    (addPossible acc ty name).possible_rooms
      = if ty = "room" then acc.possible_rooms ++ [name]
        else acc.possible_rooms := by
  unfold addPossible
  by_cases t1 : ty = "suspect"
  · rw [if_pos t1, if_neg (t1 ▸ (by decide : ("suspect" : String) ≠ "room"))]
  · rw [if_neg t1]
    by_cases t2 : ty = "weapon"
    · rw [if_pos t2, if_neg (t2 ▸ (by decide : ("weapon" : String) ≠ "room"))]
    · rw [if_neg t2]
      by_cases t3 : ty = "room"
      · rw [if_pos t3, if_pos t3]
      · rw [if_neg t3, if_neg t3]

theorem setConfirmed_suspect (acc : SolutionScan) (ty name : String) :
    (setConfirmed acc ty name).confirmed_suspect
      = if ty = "suspect" then some name else acc.confirmed_suspect := by
  unfold setConfirmed
  by_cases t1 : ty = "suspect"
  · rw [if_pos t1, if_pos t1]
  · rw [if_neg t1, if_neg t1]
    by_cases t2 : ty = "weapon"
    · rw [if_pos t2]
    · rw [if_neg t2]
      by_cases t3 : ty = "room"
      · rw [if_pos t3]
      · rw [if_neg t3]

theorem setConfirmed_weapon (acc : SolutionScan) (ty name : String) :
    (setConfirmed acc ty name).confirmed_weapon
      = if ty = "weapon" then some name else acc.confirmed_weapon := by
  unfold setConfirmed
  by_cases t1 : ty = "suspect"
  · rw [if_pos t1, if_neg (t1 ▸ (by decide : ("suspect" : String) ≠ "weapon"))]
  · rw [if_neg t1]
    by_cases t2 : ty = "weapon"
    · rw [if_pos t2, if_pos t2]
    · rw [if_neg t2, if_neg t2]
      by_cases t3 : ty = "room"
      · rw [if_pos t3]
      · rw [if_neg t3]

theorem setConfirmed_room (acc : SolutionScan) (ty name : String) :
    (setConfirmed acc ty name).confirmed_room
      = if ty = "room" then some name else acc.confirmed_room := by
  unfold setConfirmed
  by_cases t1 : ty = "suspect"
  · rw [if_pos t1, if_neg (t1 ▸ (by decide : ("suspect" : String) ≠ "room"))]
  · rw [if_neg t1]
    by_cases t2 : ty = "weapon"
    · rw [if_pos t2, if_neg (t2 ▸ (by decide : ("weapon" : String) ≠ "room"))]
    · rw [if_neg t2]
      by_cases t3 : ty = "room"
      · rw [if_pos t3, if_pos t3]
      · rw [if_neg t3, if_neg t3]

theorem scanStep_cases (acc : SolutionScan) (q : String × NotebookEntry) :
    (q.2.envelope_status = CardStatus.has
      ∧ scanStep acc q = setConfirmed acc q.2.card_type q.1)
    ∨ (q.2.envelope_status ≠ CardStatus.has
      ∧ q.2.envelope_status ≠ CardStatus.notHas ∧ anyPlayerHas q.2 = false
      ∧ scanStep acc q = addPossible acc q.2.card_type q.1)
    ∨ (scanStep acc q = acc ∧ q.2.envelope_status ≠ CardStatus.has
      ∧ (q.2.envelope_status = CardStatus.notHas ∨ anyPlayerHas q.2 = true)) := by
  unfold scanStep
  by_cases h1 : q.2.envelope_status = CardStatus.has
  · rw [if_pos h1]
    exact Or.inl ⟨h1, rfl⟩
  · rw [if_neg h1]
    by_cases h2 : q.2.envelope_status ≠ CardStatus.notHas
    · rw [if_pos h2]
      by_cases h3 : anyPlayerHas q.2 = true
      · rw [if_neg (by simp [h3])]
        exact Or.inr (Or.inr ⟨rfl, h1, Or.inr h3⟩)
      · rw [if_pos (by simp [Bool.eq_false_iff.2 h3])]
        exact Or.inr (Or.inl ⟨h1, h2, Bool.eq_false_iff.2 h3, rfl⟩)
    · rw [if_neg h2]
      simp only [not_not] at h2
      exact Or.inr (Or.inr ⟨rfl, h1, Or.inl h2⟩)

theorem scan_possible_spec (l : List (String × NotebookEntry)) (acc : SolutionScan) :
    ((l.foldl scanStep acc).possible_suspects
      = acc.possible_suspects
        ++ (l.filter (fun q => q.2.card_type = "suspect"
             ∧ q.2.envelope_status ≠ CardStatus.has
             ∧ q.2.envelope_status ≠ CardStatus.notHas ∧ ¬ anyPlayerHas q.2)).map
            (fun q => q.1))
    ∧ ((l.foldl scanStep acc).possible_weapons
      = acc.possible_weapons
        ++ (l.filter (fun q => q.2.card_type = "weapon"
             ∧ q.2.envelope_status ≠ CardStatus.has
             ∧ q.2.envelope_status ≠ CardStatus.notHas ∧ ¬ anyPlayerHas q.2)).map
            (fun q => q.1))
    ∧ ((l.foldl scanStep acc).possible_rooms
      = acc.possible_rooms
        ++ (l.filter (fun q => q.2.card_type = "room"
             ∧ q.2.envelope_status ≠ CardStatus.has
             ∧ q.2.envelope_status ≠ CardStatus.notHas ∧ ¬ anyPlayerHas q.2)).map
            (fun q => q.1)) := by
  induction l generalizing acc with
  | nil => exact ⟨by simp, by simp, by simp⟩
  | cons q l ih =>
      rw [List.foldl_cons]
      rcases scanStep_cases acc q with ⟨h1, hstep⟩ | ⟨h1, h2, h3, hstep⟩
        | ⟨hstep, h1, h2⟩
      · rw [hstep]
        rcases ih (setConfirmed acc q.2.card_type q.1) with ⟨ihs, ihw, ihr⟩
        have hsp := setConfirmed_possible acc q.2.card_type q.1
        refine ⟨?_, ?_, ?_⟩
        · rw [ihs, hsp.1, List.filter_cons_of_neg (by simp [h1])]
        · rw [ihw, hsp.2.1, List.filter_cons_of_neg (by simp [h1])]
        · rw [ihr, hsp.2.2, List.filter_cons_of_neg (by simp [h1])]
      · rw [hstep]
        rcases ih (addPossible acc q.2.card_type q.1) with ⟨ihs, ihw, ihr⟩
        refine ⟨?_, ?_, ?_⟩
        · rw [ihs, addPossible_suspects]
          by_cases ht : q.2.card_type = "suspect"
          · rw [if_pos ht, List.filter_cons_of_pos (by simp [ht, h1, h2, h3]),
              List.map_cons]
            simp
          · rw [if_neg ht, List.filter_cons_of_neg (by simp [ht])]
        · rw [ihw, addPossible_weapons]
          by_cases ht : q.2.card_type = "weapon"
          · rw [if_pos ht, List.filter_cons_of_pos (by simp [ht, h1, h2, h3]),
              List.map_cons]
            simp
          · rw [if_neg ht, List.filter_cons_of_neg (by simp [ht])]
        · rw [ihr, addPossible_rooms]
          by_cases ht : q.2.card_type = "room"
          · rw [if_pos ht, List.filter_cons_of_pos (by simp [ht, h1, h2, h3]),
              List.map_cons]
            simp
          · rw [if_neg ht, List.filter_cons_of_neg (by simp [ht])]
      · rw [hstep]
        rcases ih acc with ⟨ihs, ihw, ihr⟩
        refine ⟨?_, ?_, ?_⟩
        · rw [ihs, List.filter_cons]
          rcases h2 with h2 | h2 <;> simp [h2]
        · rw [ihw, List.filter_cons]
          rcases h2 with h2 | h2 <;> simp [h2]
        · rw [ihr, List.filter_cons]
          rcases h2 with h2 | h2 <;> simp [h2]

theorem scan_confirmed_mono_suspects (l : List (String × NotebookEntry))
    (acc : SolutionScan) (h : acc.confirmed_suspect.isSome = true) :
    (l.foldl scanStep acc).confirmed_suspect.isSome = true := by
  induction l generalizing acc with
  | nil => exact h
  | cons q l ih =>
      rw [List.foldl_cons]
      rcases scanStep_cases acc q with ⟨h1, hstep⟩ | ⟨_, _, _, hstep⟩ | ⟨hstep, _, _⟩
      · rw [hstep]
        apply ih
        rw [setConfirmed_suspect]
        by_cases ht : q.2.card_type = "suspect"
        · rw [if_pos ht]
          rfl
        · rw [if_neg ht]
          exact h
      · rw [hstep]
        apply ih
        rw [(addPossible_confirmed acc q.2.card_type q.1).1]
        exact h
      · rw [hstep]
        exact ih acc h

theorem scan_confirmed_isSome_suspects (l : List (String × NotebookEntry))
    (acc : SolutionScan) :
    (l.foldl scanStep acc).confirmed_suspect.isSome = true
      ↔ acc.confirmed_suspect.isSome = true
        ∨ l.filter (fun q => q.2.card_type = "suspect"
            ∧ q.2.envelope_status = CardStatus.has) ≠ [] := by
  induction l generalizing acc with
  | nil =>
      rw [List.foldl_nil, List.filter_nil]
      simp
  | cons q l ih =>
      rw [List.foldl_cons, List.filter_cons]
      rcases scanStep_cases acc q with ⟨h1, hstep⟩ | ⟨h1, _, _, hstep⟩ | ⟨hstep, h1, _⟩
      · rw [hstep]
        by_cases ht : q.2.card_type = "suspect"
        · rw [if_pos (by simp [ht, h1])]
          constructor
          · intro _
            exact Or.inr (by simp)
          · intro _
            apply scan_confirmed_mono_suspects
            rw [setConfirmed_suspect, if_pos ht]
            rfl
        · rw [if_neg (by simp [ht]), ih]
          constructor
          · rintro (hl | hr)
            · rw [setConfirmed_suspect, if_neg ht] at hl
              exact Or.inl hl
            · exact Or.inr hr
          · rintro (hl | hr)
            · rw [setConfirmed_suspect, if_neg ht]
              exact Or.inl hl
            · exact Or.inr hr
      · rw [hstep, if_neg (by simp [h1]), ih,
          (addPossible_confirmed acc q.2.card_type q.1).1]
      · rw [hstep, if_neg (by simp [h1]), ih]

theorem scan_confirmed_mem_suspects (l : List (String × NotebookEntry))
    (acc : SolutionScan) (v : String)
    (h : (l.foldl scanStep acc).confirmed_suspect = some v) :
    acc.confirmed_suspect = some v
    ∨ v ∈ (l.filter (fun q => q.2.card_type = "suspect"
        ∧ q.2.envelope_status = CardStatus.has)).map (fun q => q.1) := by
  induction l generalizing acc with
  | nil => exact Or.inl h
  | cons q l ih =>
      rw [List.foldl_cons] at h
      rw [List.filter_cons]
      rcases scanStep_cases acc q with ⟨h1, hstep⟩ | ⟨h1, _, _, hstep⟩ | ⟨hstep, h1, _⟩
      · rw [hstep] at h
        by_cases ht : q.2.card_type = "suspect"
        · rw [if_pos (by simp [ht, h1])]
          rcases ih _ h with hl | hr
          · rw [setConfirmed_suspect, if_pos ht] at hl
            right
            rw [List.map_cons]
            have hv : q.1 = v := Option.some.inj hl
            rw [← hv]
            exact List.mem_cons_self _ _
          · right
            rw [List.map_cons]
            exact List.mem_cons_of_mem _ hr
        · rw [if_neg (by simp [ht])]
          rcases ih _ h with hl | hr
          · rw [setConfirmed_suspect, if_neg ht] at hl
            exact Or.inl hl
          · exact Or.inr hr
      · rw [hstep] at h
        rw [if_neg (by simp [h1])]
        rcases ih _ h with hl | hr
        · rw [(addPossible_confirmed acc q.2.card_type q.1).1] at hl
          exact Or.inl hl
        · exact Or.inr hr
      · rw [hstep] at h
        rw [if_neg (by simp [h1])]
        exact ih acc h

theorem confirmed_truthy_suspects (nb : DetectiveNotebook)
    (hname : ∀ q ∈ nb.entries, q.1 ≠ "") :
    truthy (solutionScan nb).confirmed_suspect = true ↔ confirmedCards nb "suspect" ≠ [] := by
  constructor
  · intro h
    have hsome : (solutionScan nb).confirmed_suspect.isSome = true := by
      cases hcs : (solutionScan nb).confirmed_suspect with
      | none =>
          unfold truthy at h
          rw [hcs] at h
          cases h
      | some v => rfl
    rcases (scan_confirmed_isSome_suspects nb.entries _).1 hsome with hl | hr
    · cases hl
    · unfold confirmedCards
      intro hmap
      exact hr (List.map_eq_nil_iff.1 hmap)
  · intro h
    have hfilter : nb.entries.filter (fun q => q.2.card_type = "suspect"
        ∧ q.2.envelope_status = CardStatus.has) ≠ [] := by
      intro hf
      apply h
      unfold confirmedCards
      rw [hf]
      rfl
    have hsome := (scan_confirmed_isSome_suspects nb.entries scanInit).2 (Or.inr hfilter)
    cases hcs : (solutionScan nb).confirmed_suspect with
    | none =>
        unfold solutionScan at hcs
        rw [hcs] at hsome
        cases hsome
    | some v =>
        have hcs2 : (nb.entries.foldl scanStep scanInit).confirmed_suspect = some v := hcs
        rcases scan_confirmed_mem_suspects nb.entries scanInit v hcs2 with hl | hr
        · cases hl
        · rcases List.mem_map.1 hr with ⟨q, hq, rfl⟩
          have hne := hname q (List.mem_filter.1 hq).1
          unfold truthy
          simp [hne]

theorem confirmed_mem_suspects (nb : DetectiveNotebook) (v : String)
    (h : (solutionScan nb).confirmed_suspect = some v) : v ∈ confirmedCards nb "suspect" := by
  unfold solutionScan at h
  rcases scan_confirmed_mem_suspects nb.entries _ v h with hl | hr
  · cases hl
  · exact hr

theorem scan_confirmed_mono_weapons (l : List (String × NotebookEntry))
    (acc : SolutionScan) (h : acc.confirmed_weapon.isSome = true) :
    (l.foldl scanStep acc).confirmed_weapon.isSome = true := by
  induction l generalizing acc with
  | nil => exact h
  | cons q l ih =>
      rw [List.foldl_cons]
      rcases scanStep_cases acc q with ⟨h1, hstep⟩ | ⟨_, _, _, hstep⟩ | ⟨hstep, _, _⟩
      · rw [hstep]
        apply ih
        rw [setConfirmed_weapon]
        by_cases ht : q.2.card_type = "weapon"
        · rw [if_pos ht]
          rfl
        · rw [if_neg ht]
          exact h
      · rw [hstep]
        apply ih
        rw [(addPossible_confirmed acc q.2.card_type q.1).2.1]
        exact h
      · rw [hstep]
        exact ih acc h

theorem scan_confirmed_isSome_weapons (l : List (String × NotebookEntry))
    (acc : SolutionScan) :
    (l.foldl scanStep acc).confirmed_weapon.isSome = true
      ↔ acc.confirmed_weapon.isSome = true
        ∨ l.filter (fun q => q.2.card_type = "weapon"
            ∧ q.2.envelope_status = CardStatus.has) ≠ [] := by
  induction l generalizing acc with
  | nil =>
      rw [List.foldl_nil, List.filter_nil]
      simp
  | cons q l ih =>
      rw [List.foldl_cons, List.filter_cons]
      rcases scanStep_cases acc q with ⟨h1, hstep⟩ | ⟨h1, _, _, hstep⟩ | ⟨hstep, h1, _⟩
      · rw [hstep]
        by_cases ht : q.2.card_type = "weapon"
        · rw [if_pos (by simp [ht, h1])]
          constructor
          · intro _
            exact Or.inr (by simp)
          · intro _
            apply scan_confirmed_mono_weapons
            rw [setConfirmed_weapon, if_pos ht]
            rfl
        · rw [if_neg (by simp [ht]), ih]
          constructor
          · rintro (hl | hr)
            · rw [setConfirmed_weapon, if_neg ht] at hl
              exact Or.inl hl
            · exact Or.inr hr
          · rintro (hl | hr)
            · rw [setConfirmed_weapon, if_neg ht]
              exact Or.inl hl
            · exact Or.inr hr
      · rw [hstep, if_neg (by simp [h1]), ih,
          (addPossible_confirmed acc q.2.card_type q.1).2.1]
      · rw [hstep, if_neg (by simp [h1]), ih]

theorem scan_confirmed_mem_weapons (l : List (String × NotebookEntry))
    (acc : SolutionScan) (v : String)
    (h : (l.foldl scanStep acc).confirmed_weapon = some v) :
    acc.confirmed_weapon = some v
    ∨ v ∈ (l.filter (fun q => q.2.card_type = "weapon"
        ∧ q.2.envelope_status = CardStatus.has)).map (fun q => q.1) := by
  induction l generalizing acc with
  | nil => exact Or.inl h
  | cons q l ih =>
      rw [List.foldl_cons] at h
      rw [List.filter_cons]
      rcases scanStep_cases acc q with ⟨h1, hstep⟩ | ⟨h1, _, _, hstep⟩ | ⟨hstep, h1, _⟩
      · rw [hstep] at h
        by_cases ht : q.2.card_type = "weapon"
        · rw [if_pos (by simp [ht, h1])]
          rcases ih _ h with hl | hr
          · rw [setConfirmed_weapon, if_pos ht] at hl
            right
            rw [List.map_cons]
            have hv : q.1 = v := Option.some.inj hl
            rw [← hv]
            exact List.mem_cons_self _ _
          · right
            rw [List.map_cons]
            exact List.mem_cons_of_mem _ hr
        · rw [if_neg (by simp [ht])]
          rcases ih _ h with hl | hr
          · rw [setConfirmed_weapon, if_neg ht] at hl
            exact Or.inl hl
          · exact Or.inr hr
      · rw [hstep] at h
        rw [if_neg (by simp [h1])]
        rcases ih _ h with hl | hr
        · rw [(addPossible_confirmed acc q.2.card_type q.1).2.1] at hl
          exact Or.inl hl
        · exact Or.inr hr
      · rw [hstep] at h
        rw [if_neg (by simp [h1])]
        exact ih acc h

theorem confirmed_truthy_weapons (nb : DetectiveNotebook)
    (hname : ∀ q ∈ nb.entries, q.1 ≠ "") :
    truthy (solutionScan nb).confirmed_weapon = true ↔ confirmedCards nb "weapon" ≠ [] := by
  constructor
  · intro h
    have hsome : (solutionScan nb).confirmed_weapon.isSome = true := by
      cases hcs : (solutionScan nb).confirmed_weapon with
      | none =>
          unfold truthy at h
          rw [hcs] at h
          cases h
      | some v => rfl
    rcases (scan_confirmed_isSome_weapons nb.entries _).1 hsome with hl | hr
    · cases hl
    · unfold confirmedCards
      intro hmap
      exact hr (List.map_eq_nil_iff.1 hmap)
  · intro h
    have hfilter : nb.entries.filter (fun q => q.2.card_type = "weapon"
        ∧ q.2.envelope_status = CardStatus.has) ≠ [] := by
      intro hf
      apply h
      unfold confirmedCards
      rw [hf]
      rfl
    have hsome := (scan_confirmed_isSome_weapons nb.entries scanInit).2 (Or.inr hfilter)
    cases hcs : (solutionScan nb).confirmed_weapon with
    | none =>
        unfold solutionScan at hcs
        rw [hcs] at hsome
        cases hsome
    | some v =>
        have hcs2 : (nb.entries.foldl scanStep scanInit).confirmed_weapon = some v := hcs
        rcases scan_confirmed_mem_weapons nb.entries scanInit v hcs2 with hl | hr
        · cases hl
        · rcases List.mem_map.1 hr with ⟨q, hq, rfl⟩
          have hne := hname q (List.mem_filter.1 hq).1
          unfold truthy
          simp [hne]

theorem confirmed_mem_weapons (nb : DetectiveNotebook) (v : String)
    (h : (solutionScan nb).confirmed_weapon = some v) : v ∈ confirmedCards nb "weapon" := by
  unfold solutionScan at h
  rcases scan_confirmed_mem_weapons nb.entries _ v h with hl | hr
  · cases hl
  · exact hr

theorem scan_confirmed_mono_rooms (l : List (String × NotebookEntry))
    (acc : SolutionScan) (h : acc.confirmed_room.isSome = true) :
    (l.foldl scanStep acc).confirmed_room.isSome = true := by
  induction l generalizing acc with
  | nil => exact h
  | cons q l ih =>
      rw [List.foldl_cons]
      rcases scanStep_cases acc q with ⟨h1, hstep⟩ | ⟨_, _, _, hstep⟩ | ⟨hstep, _, _⟩
      · rw [hstep]
        apply ih
        rw [setConfirmed_room]
        by_cases ht : q.2.card_type = "room"
        · rw [if_pos ht]
          rfl
        · rw [if_neg ht]
          exact h
      · rw [hstep]
        apply ih
        rw [(addPossible_confirmed acc q.2.card_type q.1).2.2]
        exact h
      · rw [hstep]
        exact ih acc h

theorem scan_confirmed_isSome_rooms (l : List (String × NotebookEntry))
    (acc : SolutionScan) :
    (l.foldl scanStep acc).confirmed_room.isSome = true
      ↔ acc.confirmed_room.isSome = true
        ∨ l.filter (fun q => q.2.card_type = "room"
            ∧ q.2.envelope_status = CardStatus.has) ≠ [] := by
  induction l generalizing acc with
  | nil =>
      rw [List.foldl_nil, List.filter_nil]
      simp
  | cons q l ih =>
      rw [List.foldl_cons, List.filter_cons]
      rcases scanStep_cases acc q with ⟨h1, hstep⟩ | ⟨h1, _, _, hstep⟩ | ⟨hstep, h1, _⟩
      · rw [hstep]
        by_cases ht : q.2.card_type = "room"
        · rw [if_pos (by simp [ht, h1])]
          constructor
          · intro _
            exact Or.inr (by simp)
          · intro _
            apply scan_confirmed_mono_rooms
            rw [setConfirmed_room, if_pos ht]
            rfl
        · rw [if_neg (by simp [ht]), ih]
          constructor
          · rintro (hl | hr)
            · rw [setConfirmed_room, if_neg ht] at hl
              exact Or.inl hl
            · exact Or.inr hr
          · rintro (hl | hr)
            · rw [setConfirmed_room, if_neg ht]
              exact Or.inl hl
            · exact Or.inr hr
      · rw [hstep, if_neg (by simp [h1]), ih,
          (addPossible_confirmed acc q.2.card_type q.1).2.2]
      · rw [hstep, if_neg (by simp [h1]), ih]

theorem scan_confirmed_mem_rooms (l : List (String × NotebookEntry))
    (acc : SolutionScan) (v : String)
    (h : (l.foldl scanStep acc).confirmed_room = some v) :
    acc.confirmed_room = some v
    ∨ v ∈ (l.filter (fun q => q.2.card_type = "room"
        ∧ q.2.envelope_status = CardStatus.has)).map (fun q => q.1) := by
  induction l generalizing acc with
  | nil => exact Or.inl h
  | cons q l ih =>
      rw [List.foldl_cons] at h
      rw [List.filter_cons]
      rcases scanStep_cases acc q with ⟨h1, hstep⟩ | ⟨h1, _, _, hstep⟩ | ⟨hstep, h1, _⟩
      · rw [hstep] at h
        by_cases ht : q.2.card_type = "room"
        · rw [if_pos (by simp [ht, h1])]
          rcases ih _ h with hl | hr
          · rw [setConfirmed_room, if_pos ht] at hl
            right
            rw [List.map_cons]
            have hv : q.1 = v := Option.some.inj hl
            rw [← hv]
            exact List.mem_cons_self _ _
          · right
            rw [List.map_cons]
            exact List.mem_cons_of_mem _ hr
        · rw [if_neg (by simp [ht])]
          rcases ih _ h with hl | hr
          · rw [setConfirmed_room, if_neg ht] at hl
            exact Or.inl hl
          · exact Or.inr hr
      · rw [hstep] at h
        rw [if_neg (by simp [h1])]
        rcases ih _ h with hl | hr
        · rw [(addPossible_confirmed acc q.2.card_type q.1).2.2] at hl
          exact Or.inl hl
        · exact Or.inr hr
      · rw [hstep] at h
        rw [if_neg (by simp [h1])]
        exact ih acc h

theorem confirmed_truthy_rooms (nb : DetectiveNotebook)
    (hname : ∀ q ∈ nb.entries, q.1 ≠ "") :
    truthy (solutionScan nb).confirmed_room = true ↔ confirmedCards nb "room" ≠ [] := by
  constructor
  · intro h
    have hsome : (solutionScan nb).confirmed_room.isSome = true := by
      cases hcs : (solutionScan nb).confirmed_room with
      | none =>
          unfold truthy at h
          rw [hcs] at h
          cases h
      | some v => rfl
    rcases (scan_confirmed_isSome_rooms nb.entries _).1 hsome with hl | hr
    · cases hl
    · unfold confirmedCards
      intro hmap
      exact hr (List.map_eq_nil_iff.1 hmap)
  · intro h
    have hfilter : nb.entries.filter (fun q => q.2.card_type = "room"
        ∧ q.2.envelope_status = CardStatus.has) ≠ [] := by
      intro hf
      apply h
      unfold confirmedCards
      rw [hf]
      rfl
    have hsome := (scan_confirmed_isSome_rooms nb.entries scanInit).2 (Or.inr hfilter)
    cases hcs : (solutionScan nb).confirmed_room with
    | none =>
        unfold solutionScan at hcs
        rw [hcs] at hsome
        cases hsome
    | some v =>
        have hcs2 : (nb.entries.foldl scanStep scanInit).confirmed_room = some v := hcs
        rcases scan_confirmed_mem_rooms nb.entries scanInit v hcs2 with hl | hr
        · cases hl
        · rcases List.mem_map.1 hr with ⟨q, hq, rfl⟩
          have hne := hname q (List.mem_filter.1 hq).1
          unfold truthy
          simp [hne]

theorem confirmed_mem_rooms (nb : DetectiveNotebook) (v : String)
    (h : (solutionScan nb).confirmed_room = some v) : v ∈ confirmedCards nb "room" := by
  unfold solutionScan at h
  rcases scan_confirmed_mem_rooms nb.entries _ v h with hl | hr
  · cases hl
  · exact hr

/-! ## The accusation-gating equivalence -/

theorem solutionScan_possible (nb : DetectiveNotebook) :
    (solutionScan nb).possible_suspects = candidateCards nb "suspect"
    ∧ (solutionScan nb).possible_weapons = candidateCards nb "weapon"
    ∧ (solutionScan nb).possible_rooms = candidateCards nb "room" := by
  unfold solutionScan candidateCards
  refine ⟨?_, ?_, ?_⟩
  · rw [(scan_possible_spec nb.entries scanInit).1]
    simp [scanInit]
  · rw [(scan_possible_spec nb.entries scanInit).2.1]
    simp [scanInit]
  · rw [(scan_possible_spec nb.entries scanInit).2.2]
    simp [scanInit]

theorem canAccuseBool_iff (nb : DetectiveNotebook)
    (hname : ∀ q ∈ nb.entries, q.1 ≠ "") :
    canAccuseBool nb = true
      ↔ (categoryReady nb "suspect" ∧ categoryReady nb "weapon"
          ∧ categoryReady nb "room") := by
  rcases solutionScan_possible nb with ⟨hps, hpw, hpr⟩
  unfold canAccuseBool categoryReady
  rw [hps, hpw, hpr]
  simp only [Bool.and_eq_true, Bool.or_eq_true, decide_eq_true_eq]
  rw [confirmed_truthy_suspects nb hname, confirmed_truthy_weapons nb hname,
    confirmed_truthy_rooms nb hname]
  tauto

theorem accusation_gating_main (nb : DetectiveNotebook)
    (hname : ∀ q ∈ nb.entries, q.1 ≠ "") :
    ((get_accusation_recommendation nb).can_accuse = true
        ↔ (categoryReady nb "suspect" ∧ categoryReady nb "weapon"
            ∧ categoryReady nb "room"))
    ∧ ((get_accusation_recommendation nb).can_accuse = true →
        (∃ c, (get_accusation_recommendation nb).suspect = some c
            ∧ (c ∈ confirmedCards nb "suspect" ∨ candidateCards nb "suspect" = [c]))
        ∧ (∃ c, (get_accusation_recommendation nb).weapon = some c
            ∧ (c ∈ confirmedCards nb "weapon" ∨ candidateCards nb "weapon" = [c]))
        ∧ (∃ c, (get_accusation_recommendation nb).room = some c
            ∧ (c ∈ confirmedCards nb "room" ∨ candidateCards nb "room" = [c])))
    ∧ ((get_accusation_recommendation nb).can_accuse = false →
        (get_accusation_recommendation nb).possible_suspects
            = candidateCards nb "suspect"
        ∧ (get_accusation_recommendation nb).possible_weapons
            = candidateCards nb "weapon"
        ∧ (get_accusation_recommendation nb).possible_rooms
            = candidateCards nb "room"
        ∧ (get_accusation_recommendation nb).reason = ambiguousReason nb) := by
  rcases solutionScan_possible nb with ⟨hps, hpw, hpr⟩
  have hts := confirmed_truthy_suspects nb hname
  have htw := confirmed_truthy_weapons nb hname
  have htr := confirmed_truthy_rooms nb hname
  have hnts : (¬ truthy (solutionScan nb).confirmed_suspect = true)
      ↔ confirmedCards nb "suspect" = [] := (not_iff_not.2 hts).trans not_ne_iff
  have hntw : (¬ truthy (solutionScan nb).confirmed_weapon = true)
      ↔ confirmedCards nb "weapon" = [] := (not_iff_not.2 htw).trans not_ne_iff
  have hntr : (¬ truthy (solutionScan nb).confirmed_room = true)
      ↔ confirmedCards nb "room" = [] := (not_iff_not.2 htr).trans not_ne_iff
  have e1 : (if ¬ truthy (solutionScan nb).confirmed_suspect
        ∧ (candidateCards nb "suspect").length ≠ 1 then
      [toString (candidateCards nb "suspect").length
        ++ " suspect possibilities remain"] else [])
      = (if categoryAmbiguous nb "suspect" then
      [toString (candidateCards nb "suspect").length
        ++ " suspect possibilities remain"] else []) :=
    if_congr (and_congr_left (fun _ => hnts)) rfl rfl
  have e2 : (if ¬ truthy (solutionScan nb).confirmed_weapon
        ∧ (candidateCards nb "weapon").length ≠ 1 then
      [toString (candidateCards nb "weapon").length
        ++ " weapon possibilities remain"] else [])
      = (if categoryAmbiguous nb "weapon" then
      [toString (candidateCards nb "weapon").length
        ++ " weapon possibilities remain"] else []) :=
    if_congr (and_congr_left (fun _ => hntw)) rfl rfl
  have e3 : (if ¬ truthy (solutionScan nb).confirmed_room
        ∧ (candidateCards nb "room").length ≠ 1 then
      [toString (candidateCards nb "room").length
        ++ " room possibilities remain"] else [])
      = (if categoryAmbiguous nb "room" then
      [toString (candidateCards nb "room").length
        ++ " room possibilities remain"] else []) :=
    if_congr (and_congr_left (fun _ => hntr)) rfl rfl
  have hreasons : accusationReasons nb
      = (if categoryAmbiguous nb "suspect" then
          [toString (candidateCards nb "suspect").length
            ++ " suspect possibilities remain"] else [])
        ++ (if categoryAmbiguous nb "weapon" then
          [toString (candidateCards nb "weapon").length
            ++ " weapon possibilities remain"] else [])
        ++ (if categoryAmbiguous nb "room" then
          [toString (candidateCards nb "room").length
            ++ " room possibilities remain"] else []) := by
    unfold accusationReasons
    rw [hps, hpw, hpr, e1, e2, e3]
  by_cases hca : canAccuseBool nb = true
  · have hrdy := (canAccuseBool_iff nb hname).1 hca
    have hca3 : (truthy (solutionScan nb).confirmed_suspect
          || decide ((solutionScan nb).possible_suspects.length = 1)) = true
        ∧ (truthy (solutionScan nb).confirmed_weapon
          || decide ((solutionScan nb).possible_weapons.length = 1)) = true
        ∧ (truthy (solutionScan nb).confirmed_room
          || decide ((solutionScan nb).possible_rooms.length = 1)) = true := by
      unfold canAccuseBool at hca
      simp only [Bool.and_eq_true] at hca
      exact ⟨hca.1.1, hca.1.2, hca.2⟩
    have hrec : get_accusation_recommendation nb
        = { can_accuse := true,
            suspect := confirmedOrHead (solutionScan nb).confirmed_suspect
              (solutionScan nb).possible_suspects,
            weapon := confirmedOrHead (solutionScan nb).confirmed_weapon
              (solutionScan nb).possible_weapons,
            room := confirmedOrHead (solutionScan nb).confirmed_room
              (solutionScan nb).possible_rooms,
            possible_suspects := [], possible_weapons := [], possible_rooms := [],
            reason := "All three categories narrowed to one option" } := by
      unfold get_accusation_recommendation
      rw [if_pos hca]
    rw [hrec]
    refine ⟨by simp [hrdy], fun _ => ⟨?_, ?_, ?_⟩, fun hfalse => absurd hfalse (by simp)⟩
    · unfold confirmedOrHead
      by_cases ht : truthy (solutionScan nb).confirmed_suspect = true
      · rw [if_pos ht]
        cases hcs : (solutionScan nb).confirmed_suspect with
        | none =>
            unfold truthy at ht
            rw [hcs] at ht
            cases ht
        | some v => exact ⟨v, rfl, Or.inl (confirmed_mem_suspects nb v hcs)⟩
      · rw [if_neg ht]
        have hlen : (candidateCards nb "suspect").length = 1 := by
          rcases Bool.or_eq_true_iff.1 hca3.1 with h | h
          · exact absurd h ht
          · rw [← hps]
            exact of_decide_eq_true h
        rcases List.length_eq_one.1 hlen with ⟨c, hc⟩
        refine ⟨c, ?_, Or.inr hc⟩
        rw [hps, hc]
        rfl
    · unfold confirmedOrHead
      by_cases ht : truthy (solutionScan nb).confirmed_weapon = true
      · rw [if_pos ht]
        cases hcs : (solutionScan nb).confirmed_weapon with
        | none =>
            unfold truthy at ht
            rw [hcs] at ht
            cases ht
        | some v => exact ⟨v, rfl, Or.inl (confirmed_mem_weapons nb v hcs)⟩
      · rw [if_neg ht]
        have hlen : (candidateCards nb "weapon").length = 1 := by
          rcases Bool.or_eq_true_iff.1 hca3.2.1 with h | h
          · exact absurd h ht
          · rw [← hpw]
            exact of_decide_eq_true h
        rcases List.length_eq_one.1 hlen with ⟨c, hc⟩
        refine ⟨c, ?_, Or.inr hc⟩
        rw [hpw, hc]
        rfl
    · unfold confirmedOrHead
      by_cases ht : truthy (solutionScan nb).confirmed_room = true
      · rw [if_pos ht]
        cases hcs : (solutionScan nb).confirmed_room with
        | none =>
            unfold truthy at ht
            rw [hcs] at ht
            cases ht
        | some v => exact ⟨v, rfl, Or.inl (confirmed_mem_rooms nb v hcs)⟩
      · rw [if_neg ht]
        have hlen : (candidateCards nb "room").length = 1 := by
          rcases Bool.or_eq_true_iff.1 hca3.2.2 with h | h
          · exact absurd h ht
          · rw [← hpr]
            exact of_decide_eq_true h
        rcases List.length_eq_one.1 hlen with ⟨c, hc⟩
        refine ⟨c, ?_, Or.inr hc⟩
        rw [hpr, hc]
        rfl
  · have hnrdy : ¬ (categoryReady nb "suspect" ∧ categoryReady nb "weapon"
        ∧ categoryReady nb "room") := fun h => hca ((canAccuseBool_iff nb hname).2 h)
    have hrec : get_accusation_recommendation nb
        = { can_accuse := false, suspect := none, weapon := none, room := none,
            possible_suspects := (solutionScan nb).possible_suspects,
            possible_weapons := (solutionScan nb).possible_weapons,
            possible_rooms := (solutionScan nb).possible_rooms,
            reason := if accusationReasons nb ≠ [] then
                String.intercalate "; " (accusationReasons nb)
              else "Need more information" } := by
      unfold get_accusation_recommendation
      rw [if_neg hca]
    rw [hrec]
    refine ⟨by simp [hnrdy], fun htrue => absurd htrue (by simp), fun _ => ⟨hps, hpw, hpr, ?_⟩⟩
    have hne : accusationReasons nb ≠ [] := by
      rw [hreasons]
      have hamb : categoryAmbiguous nb "suspect" ∨ categoryAmbiguous nb "weapon"
          ∨ categoryAmbiguous nb "room" := by
        unfold categoryAmbiguous
        by_contra hno
        push_neg at hno
        apply hnrdy
        unfold categoryReady
        refine ⟨?_, ?_, ?_⟩
        · by_cases h1 : confirmedCards nb "suspect" = []
          · exact Or.inr (hno.1 h1)
          · exact Or.inl h1
        · by_cases h1 : confirmedCards nb "weapon" = []
          · exact Or.inr (hno.2.1 h1)
          · exact Or.inl h1
        · by_cases h1 : confirmedCards nb "room" = []
          · exact Or.inr (hno.2.2 h1)
          · exact Or.inl h1
      rcases hamb with h | h | h
      · rw [if_pos h]
        simp
      · rw [if_pos h]
        simp
      · rw [if_pos h]
        simp
    show (if accusationReasons nb ≠ [] then
        String.intercalate "; " (accusationReasons nb)
      else "Need more information") = ambiguousReason nb
    rw [if_pos hne, hreasons]
    unfold ambiguousReason
    rfl

set_option maxRecDepth 100000

/-! ## The ten claims -/

/-- C1 (elimination closure): for a catalog card whose envelope belief is
still Unknown, once `mark_not_has` has been applied to that card for every
player on the roster, the envelope belief for the card has become `HAS` —
derived by the deduction pass that runs inside the last mutation, with no
extra call by the caller. -/
theorem C1_elimination_closure (nb : DetectiveNotebook) (card : String)
    (e : NotebookEntry) (he : dictGet? nb.entries card = some e)
    (hcov : ∀ p ∈ nb.all_players, dictContains e.player_status p = true)
    (hkeys : ∀ q ∈ e.player_status, q.1 ∈ nb.all_players)
    (henv : e.envelope_status = CardStatus.unknown)
    (hne : nb.all_players ≠ []) :
    envelopeStatusOf (markNotHasAll nb card) card = some CardStatus.has := by
  have hinv := markNotHasAll_inv card nb.all_players nb.all_players nb
    (fun _ => False) rfl (fun x hx => hx)
    ⟨e, he, hcov, hkeys, by rw [henv]; decide, fun x hx => hx.elim⟩
  rcases hinv with ⟨⟨e2, he2, hcov2, hkeys2, henv2, hall⟩, hfix, hap⟩
  have hfix2 := hfix hne
  cases hcs : e2.envelope_status with
  | unknown =>
      exfalso
      have hnh : allNotHas e2.player_status = true := by
        rw [allNotHas, List.all_eq_true]
        intro q hq
        have h4 := hall q.1 (Or.inr (hkeys2 q hq)) q hq rfl
        have hq2 : q.2 = CardStatus.notHas := congrArg Prod.snd h4
        simp [hq2]
      rcases dictGet?_mem _ card e2 he2 with ⟨qq, hqmem, hqk, hqv⟩
      have hflags := sweepOnce_flags _ (by rw [hfix2]) qq hqmem
      rw [hqv] at hflags
      rw [sweepEntry_flag_of_ready _ e2 hcs hnh] at hflags
      cases hflags
  | has =>
      unfold envelopeStatusOf markNotHasAll
      rw [he2]
      simp [hcs]
  | notHas => exact absurd hcs henv2

/-- Witness for C1 at a fresh two-player notebook and the card Miss
Scarlet. -/
theorem C1_elimination_closure_witness :
    envelopeStatusOf (markNotHasAll sampleNotebook "Miss Scarlet") "Miss Scarlet"
      = some CardStatus.has :=
  C1_elimination_closure sampleNotebook "Miss Scarlet"
    { card_name := "Miss Scarlet", card_type := "suspect",
      player_status := [("P1", CardStatus.unknown), ("P2", CardStatus.unknown)],
      envelope_status := CardStatus.unknown }
    (by decide) (by decide) (by decide) (by decide) (by decide)

/-- C2 (has-implies-exclusion, amended): after `mark_card C O` on a catalog
card, (C, O) is `HAS` and every other player is `NOT_HAS` for C.  The
envelope belief however follows the exact spelling of the owner token, not
its upper-cased acceptance test: a recognized player resets the envelope to
`NOT_HAS`; the exact token "ENVELOPE" leaves the envelope `HAS`; any other
accepted capitalization of the token first sets the envelope `HAS` and then
resets it to `NOT_HAS`. -/
theorem C2_has_implies_exclusion (nb : DetectiveNotebook) (card o : String)
    (e : NotebookEntry) (he : dictGet? nb.entries card = some e) :
    (dictContains e.player_status o = true → o ≠ "ENVELOPE" →
      playerStatusOf (mark_card nb card o).1 card o = some CardStatus.has
      ∧ (∀ p ∈ nb.all_players, p ≠ o →
          playerStatusOf (mark_card nb card o).1 card p = some CardStatus.notHas)
      ∧ envelopeStatusOf (mark_card nb card o).1 card = some CardStatus.notHas)
    ∧ (dictContains e.player_status "ENVELOPE" = false → o = "ENVELOPE" →
      envelopeStatusOf (mark_card nb card o).1 card = some CardStatus.has
      ∧ (∀ p ∈ nb.all_players, p ≠ "ENVELOPE" →
          playerStatusOf (mark_card nb card o).1 card p = some CardStatus.notHas))
    ∧ (dictContains e.player_status o = false → strUpper o = "ENVELOPE" →
        o ≠ "ENVELOPE" →
      envelopeStatusOf (mark_card nb card o).1 card = some CardStatus.notHas
      ∧ (∀ p ∈ nb.all_players, p ≠ o →
          playerStatusOf (mark_card nb card o).1 card p = some CardStatus.notHas)) := by
  refine ⟨?_, ?_, ?_⟩
  · intro hc hoE
    rcases mark_card_player_full nb card o e he hc hoE
      with ⟨E, hg, _, _, _, hEps, hEenv⟩
    refine ⟨?_, ?_, ?_⟩
    · unfold playerStatusOf
      rw [hg]
      show dictGet? E.player_status o = some CardStatus.has
      rw [hEps]
      exact dictGet?_of_allAt _ o _
        (markOthers_allAt_o nb.all_players o _ CardStatus.has
          (allAt_dictSet_self e.player_status o CardStatus.has))
        (by rw [markOthers_contains_o]
            exact dictContains_dictSet_self e.player_status o CardStatus.has)
    · intro p hp hpo
      unfold playerStatusOf
      rw [hg]
      show dictGet? E.player_status p = some CardStatus.notHas
      rw [hEps]
      have hd := markOthers_done nb.all_players o
        (dictSet e.player_status o CardStatus.has) p hp hpo
      exact dictGet?_of_allAt _ p _ hd.1 hd.2
    · unfold envelopeStatusOf
      rw [hg]
      simp [hEenv]
  · intro hc hoE
    subst hoE
    rcases mark_card_envelope_exact_full nb card e he hc
      with ⟨E, hg, _, _, _, hEps, hEenv⟩
    refine ⟨?_, ?_⟩
    · unfold envelopeStatusOf
      rw [hg]
      simp [hEenv]
    · intro p hp hpo
      unfold playerStatusOf
      rw [hg]
      show dictGet? E.player_status p = some CardStatus.notHas
      rw [hEps]
      have hd := markOthers_done nb.all_players "ENVELOPE" e.player_status p hp hpo
      exact dictGet?_of_allAt _ p _ hd.1 hd.2
  · intro hc hu hoE
    rcases mark_card_envelope_other_full nb card o e he hc hu hoE
      with ⟨E, hg, _, _, _, hEps, hEenv⟩
    refine ⟨?_, ?_⟩
    · unfold envelopeStatusOf
      rw [hg]
      simp [hEenv]
    · intro p hp hpo
      unfold playerStatusOf
      rw [hg]
      show dictGet? E.player_status p = some CardStatus.notHas
      rw [hEps]
      have hd := markOthers_done nb.all_players o e.player_status p hp hpo
      exact dictGet?_of_allAt _ p _ hd.1 hd.2

/-- Witness for C2: P2 marked as holding Miss Scarlet in a fresh two-player
notebook. -/
theorem C2_has_implies_exclusion_witness :
    playerStatusOf heldNotebook "Miss Scarlet" "P2" = some CardStatus.has
    ∧ playerStatusOf heldNotebook "Miss Scarlet" "P1" = some CardStatus.notHas
    ∧ envelopeStatusOf heldNotebook "Miss Scarlet" = some CardStatus.notHas := by
  have h := (C2_has_implies_exclusion sampleNotebook "Miss Scarlet" "P2"
      { card_name := "Miss Scarlet", card_type := "suspect",
        player_status := [("P1", CardStatus.unknown), ("P2", CardStatus.unknown)],
        envelope_status := CardStatus.unknown }
      (by decide)).1 (by decide) (by decide)
  exact ⟨h.1, h.2.1 "P1" (by decide) (by decide), h.2.2⟩

/-- Counterexample to the frozen C2: the capitalization "Envelope" is
accepted as the solution token (the call succeeds and reports "Envelope has
Knife"), yet the grid it leaves behind has the envelope belief for Knife at
`NOT_HAS`, not `HAS`. -/
theorem C2_envelope_case_counterexample :
    strUpper "Envelope" = "ENVELOPE"
    ∧ (mark_card sampleNotebook "Knife" "Envelope").2
        = "✓ Marked: Envelope has Knife"
    ∧ envelopeStatusOf (mark_card sampleNotebook "Knife" "Envelope").1 "Knife"
        = some CardStatus.notHas := by
  exact ⟨by decide, by decide, by decide⟩

/-- C3 (fixpoint termination): the deduction loop always reaches its
fixpoint — the state `check_deductions` returns is unchanged by a further
sweep, and any fuel past the grid measure computes the same state, so the
pass is a total function of the grid. -/
theorem C3_fixpoint_termination (nb : DetectiveNotebook) :
    sweepOnce (check_deductions nb) = (check_deductions nb, false)
    ∧ ∀ fuel, gridMeasure nb + 1 ≤ fuel → deduceLoop fuel nb = check_deductions nb :=
  ⟨check_deductions_fix nb,
   fun fuel hf =>
     deduceLoop_fuel_mono (gridMeasure nb + 1) fuel nb (Nat.lt_succ_self _) hf⟩

/-- Witness for C3 at a fresh two-player notebook with a large fuel. -/
theorem C3_fixpoint_termination_witness :
    sweepOnce (check_deductions sampleNotebook) = (check_deductions sampleNotebook, false)
    ∧ deduceLoop 100 sampleNotebook = check_deductions sampleNotebook :=
  ⟨(C3_fixpoint_termination sampleNotebook).1,
   (C3_fixpoint_termination sampleNotebook).2 100 (by decide)⟩

/-- C4 (accusation gating): `get_accusation_recommendation` reports
`can_accuse = true` exactly when each category has a confirmed envelope card
or exactly one remaining candidate; when true it returns a confirmed or the
single candidate card per category, and when false it returns the candidate
sets together with a reason naming each ambiguous category and its remaining
option count.  The hypothesis rules out the empty card name, which Python
truthiness would treat as no confirmation. -/
theorem C4_accusation_gating (nb : DetectiveNotebook)
    (hname : ∀ q ∈ nb.entries, q.1 ≠ "") :
    ((get_accusation_recommendation nb).can_accuse = true
        ↔ (categoryReady nb "suspect" ∧ categoryReady nb "weapon"
            ∧ categoryReady nb "room"))
    ∧ ((get_accusation_recommendation nb).can_accuse = true →
        (∃ c, (get_accusation_recommendation nb).suspect = some c
            ∧ (c ∈ confirmedCards nb "suspect" ∨ candidateCards nb "suspect" = [c]))
        ∧ (∃ c, (get_accusation_recommendation nb).weapon = some c
            ∧ (c ∈ confirmedCards nb "weapon" ∨ candidateCards nb "weapon" = [c]))
        ∧ (∃ c, (get_accusation_recommendation nb).room = some c
            ∧ (c ∈ confirmedCards nb "room" ∨ candidateCards nb "room" = [c])))
    ∧ ((get_accusation_recommendation nb).can_accuse = false →
        (get_accusation_recommendation nb).possible_suspects
            = candidateCards nb "suspect"
        ∧ (get_accusation_recommendation nb).possible_weapons
            = candidateCards nb "weapon"
        ∧ (get_accusation_recommendation nb).possible_rooms
            = candidateCards nb "room"
        ∧ (get_accusation_recommendation nb).reason = ambiguousReason nb) :=
  accusation_gating_main nb hname

/-- Witness for C4 at the spec scenario: all but one card per category held
by another player. -/
theorem C4_accusation_gating_witness :
    (get_accusation_recommendation accNotebook).can_accuse = true
    ∧ ∃ c, (get_accusation_recommendation accNotebook).suspect = some c
        ∧ (c ∈ confirmedCards accNotebook "suspect"
          ∨ candidateCards accNotebook "suspect" = [c]) := by
  have h := C4_accusation_gating accNotebook (by decide)
  have hca : (get_accusation_recommendation accNotebook).can_accuse = true :=
    h.1.2 ⟨Or.inr (by decide), Or.inr (by decide), Or.inr (by decide)⟩
  exact ⟨hca, (h.2.1 hca).1⟩

/-- C5 (accusation validation, amended): `validate_accusation` returns
`valid = false` with at least one warning exactly when some proposed card is
confirmed held by a player or confirmed excluded from the envelope;
otherwise it returns `valid = true` with no warnings; the current
recommendation is attached in both cases.  (A card confirmed in the
envelope itself draws no warning.) -/
theorem C5_accusation_validation (nb : DetectiveNotebook)
    (suspect weapon room : String) :
    ((validate_accusation nb suspect weapon room).valid = false
        ∧ (validate_accusation nb suspect weapon room).warnings ≠ []
      ↔ cardKnownOut nb suspect = true ∨ cardKnownOut nb weapon = true
        ∨ cardKnownOut nb room = true)
    ∧ (¬ (cardKnownOut nb suspect = true ∨ cardKnownOut nb weapon = true
          ∨ cardKnownOut nb room = true) →
        (validate_accusation nb suspect weapon room).valid = true
          ∧ (validate_accusation nb suspect weapon room).warnings = [])
    ∧ (validate_accusation nb suspect weapon room).recommendation
        = get_accusation_recommendation nb :=
  validate_accusation_thm nb suspect weapon room

/-- Counterexample to the frozen C5: in a grid whose envelope is confirmed
to hold Miss Scarlet — an owner in the spec's sense — the accusation naming
Miss Scarlet is nonetheless reported valid with no warnings. -/
theorem C5_envelope_owner_counterexample :
    envelopeStatusOf envNotebook "Miss Scarlet" = some CardStatus.has
    ∧ (validate_accusation envNotebook "Miss Scarlet" "Knife" "Kitchen").valid = true
    ∧ (validate_accusation envNotebook "Miss Scarlet" "Knife" "Kitchen").warnings
        = [] := by
  exact ⟨by decide, by decide, by decide⟩

/-- C6 (suggestion waste detection, amended): `validate_suggestion` flags
exactly the proposed cards confirmed held by a player or confirmed excluded
from the envelope, and every name in `better_suspects` or `better_weapons`
is held by no owner at all, still possible for the envelope, and in
particular never flagged.  (A card confirmed in the envelope is not
flagged.)  The hypothesis is the catalog invariant that entry keys are not
repeated. -/
theorem C6_suggestion_waste (nb : DetectiveNotebook) (suspect weapon room : String)
    (hnodup : (nb.entries.map Prod.fst).Nodup) :
    (validate_suggestion nb suspect weapon room).wasted_cards
        = [suspect, weapon, room].filter (fun c => cardKnownOut nb c)
    ∧ (∀ c, (c ∈ (validate_suggestion nb suspect weapon room).better_suspects
          ∨ c ∈ (validate_suggestion nb suspect weapon room).better_weapons) →
        goodCandidate nb c
          ∧ c ∉ (validate_suggestion nb suspect weapon room).wasted_cards) :=
  validate_suggestion_thm nb suspect weapon room hnodup

/-- Witness for C6: suggesting Miss Scarlet (held by P2), Knife and Kitchen
flags exactly Miss Scarlet. -/
theorem C6_suggestion_waste_witness :
    (validate_suggestion heldNotebook "Miss Scarlet" "Knife" "Kitchen").wasted_cards
      = ["Miss Scarlet", "Knife", "Kitchen"].filter
          (fun c => cardKnownOut heldNotebook c)
    ∧ ["Miss Scarlet", "Knife", "Kitchen"].filter
          (fun c => cardKnownOut heldNotebook c) = ["Miss Scarlet"] :=
  ⟨(C6_suggestion_waste heldNotebook "Miss Scarlet" "Knife" "Kitchen" (by decide)).1,
   by decide⟩

/-- Counterexample to the frozen C6: with the envelope confirmed to hold
Miss Scarlet — a confirmed owner in the spec's sense — the suggestion naming
Miss Scarlet is not flagged at all. -/
theorem C6_envelope_owner_counterexample :
    envelopeStatusOf envNotebook "Miss Scarlet" = some CardStatus.has
    ∧ (validate_suggestion envNotebook "Miss Scarlet" "Knife" "Kitchen").wasted_cards
        = []
    ∧ (validate_suggestion envNotebook "Miss Scarlet" "Knife" "Kitchen").valid
        = true := by
  exact ⟨by decide, by decide, by decide⟩

/-- C7 (errors never abort — refuted by the code): `record_suggestion` with
a suggested card outside the catalog and a non-empty list of passing players
does not complete with a result; it aborts with the `KeyError` the source
raises at the unguarded `self.entries[card]` lookup. -/
theorem C7_record_suggestion_keyerror :
    record_suggestion sampleNotebook "Bogus" "Knife" "Kitchen" none none ["P2"]
      = Except.error "KeyError: Bogus" := rfl

/-- C8 (idempotence of mark_card): calling `mark_card` twice with the same
card and owner leaves the grid exactly as one call does.  The hypothesis is
the roster sanity condition that no player is literally named "ENVELOPE"
(such a player would be indistinguishable from the solution token). -/
theorem C8_mark_card_idempotent (nb : DetectiveNotebook) (card o : String)
    (hE : ∀ q ∈ nb.entries, dictContains q.2.player_status "ENVELOPE" = false) :
    (mark_card (mark_card nb card o).1 card o).1 = (mark_card nb card o).1 := by
  apply mark_card_idem
  intro e he
  rcases dictGet?_mem nb.entries card e he with ⟨q, hq, h1, hv⟩
  rw [← hv]
  exact hE q hq

/-- Witness for C8: marking Knife as held by P1 twice. -/
theorem C8_mark_card_idempotent_witness :
    (mark_card (mark_card sampleNotebook "Knife" "P1").1 "Knife" "P1").1
      = (mark_card sampleNotebook "Knife" "P1").1 :=
  C8_mark_card_idempotent sampleNotebook "Knife" "P1" (by decide)

/-- C9 (mark_not_has overwrites certainties): `mark_not_has` unconditionally
sets the (card, player) cell to `NOT_HAS` whatever it held before and
reports the success message with no conflict indication; concretely, on a
grid where P1 is recorded as holding Miss Scarlet, the call flips the cell
and the deduction pass then promotes the envelope belief for Miss Scarlet to
`HAS`. -/
theorem C9_mark_not_has_overwrites (nb : DetectiveNotebook) (card player : String)
    (e : NotebookEntry) (he : dictGet? nb.entries card = some e)
    (hc : dictContains e.player_status player = true) :
    (playerStatusOf (mark_not_has nb card player).1 card player
        = some CardStatus.notHas
      ∧ (mark_not_has nb card player).2
        = "✗ Marked: " ++ player ++ " does NOT have " ++ card)
    ∧ (playerStatusOf demoNotebook "Miss Scarlet" "P1" = some CardStatus.has
      ∧ envelopeStatusOf (mark_not_has demoNotebook "Miss Scarlet" "P1").1
          "Miss Scarlet" = some CardStatus.has) := by
  refine ⟨⟨mark_not_has_state nb card player e he hc, ?_⟩, by decide, by decide⟩
  rw [mark_not_has_eq nb card player e he hc]

/-- Witness for C9 at the demonstration grid in which P1 was recorded as
holding Miss Scarlet. -/
theorem C9_mark_not_has_overwrites_witness :
    playerStatusOf (mark_not_has demoNotebook "Miss Scarlet" "P1").1
        "Miss Scarlet" "P1" = some CardStatus.notHas
    ∧ (mark_not_has demoNotebook "Miss Scarlet" "P1").2
        = "✗ Marked: P1 does NOT have Miss Scarlet"
    ∧ envelopeStatusOf (mark_not_has demoNotebook "Miss Scarlet" "P1").1
        "Miss Scarlet" = some CardStatus.has := by
  have h := C9_mark_not_has_overwrites demoNotebook "Miss Scarlet" "P1"
    { card_name := "Miss Scarlet", card_type := "suspect",
      player_status := [("P1", CardStatus.has), ("P2", CardStatus.notHas)],
      envelope_status := CardStatus.unknown }
    (by decide) (by decide)
  exact ⟨h.1.1, h.1.2.trans (by decide), h.2.2⟩

/-- C10 (validation ignores unknown card names): both validation queries
skip a proposed name that is not a catalog key, contribute no warning for
it, and on a triple made entirely of unknown names return `valid = true`
with no warnings and nothing flagged, rather than an error. -/
theorem C10_validation_unknown_names (nb : DetectiveNotebook) (s w r : String)
    (hs : dictGet? nb.entries s = none) (hw : dictGet? nb.entries w = none)
    (hr : dictGet? nb.entries r = none) :
    (validate_accusation nb s w r).valid = true
    ∧ (validate_accusation nb s w r).warnings = []
    ∧ (validate_suggestion nb s w r).valid = true
    ∧ (validate_suggestion nb s w r).warnings = []
    ∧ (validate_suggestion nb s w r).wasted_cards = [] := by
  rcases validation_unknown_names nb s w r hs hw hr with ⟨ha, hsu⟩
  rw [ha, hsu]
  exact ⟨rfl, rfl, rfl, rfl, rfl⟩

/-- Witness for C10 with three names outside the catalog. -/
theorem C10_validation_unknown_names_witness :
    (validate_accusation sampleNotebook "Foo" "Bar" "Baz").valid = true
    ∧ (validate_accusation sampleNotebook "Foo" "Bar" "Baz").warnings = []
    ∧ (validate_suggestion sampleNotebook "Foo" "Bar" "Baz").valid = true
    ∧ (validate_suggestion sampleNotebook "Foo" "Bar" "Baz").warnings = []
    ∧ (validate_suggestion sampleNotebook "Foo" "Bar" "Baz").wasted_cards = [] :=
  C10_validation_unknown_names sampleNotebook "Foo" "Bar" "Baz"
    (by decide) (by decide) (by decide)

end ClueGame
